import Mathlib

/-!
# Google Tasks → Notion reconciliation (`src/app.js`)

A shallow embedding of the reconciliation code of `src/app.js`:
`fetchTasksFromNotion`, `isNewTask`, `saveNewTasksToNotion`,
`deleteTasksFromNotion`, `updateTaskStatusInNotion` and
`fetchCompareAndSaveTasks`.

JavaScript values are embedded by their shape: a Notion page carries an
ordered key/value property table; a property read on `undefined` or `null`
is a `TypeError`.  Asynchronous code is embedded as explicit state passing over
a `World` that records every write call made on the Notion client (in call
order) and every console line; whether the n-th write call of a cycle rejects
is decided by `Env.rejects`.
-/

namespace GTasksNotion

/-! ## Data model -/

/-- Errors a JavaScript evaluation can throw here. -/
inductive JsError where
  /-- a property read on `undefined` or `null` -/
  | typeError
  /-- a rejected promise of a provider call -/
  | rejected
  deriving DecidableEq, Repr

/-- The `text` object of a rich-text item: `{ content }`. -/
structure TextObj where
  content : String
  deriving DecidableEq, Repr

/-- One rich-text item; `text` is `undefined` for mention and equation items. -/
structure RichTextItem where
  text : Option TextObj
  deriving DecidableEq, Repr

/-- A select option: `{ name }`. -/
structure SelectOption where
  name : String
  deriving DecidableEq, Repr

/-- A date value: `{ start }`. -/
structure DateValue where
  start : String
  deriving DecidableEq, Repr

/-- A Notion property value, by the one key it carries. -/
inductive PropertyValue where
  | title (title : List RichTextItem)
  | rich_text (rich_text : List RichTextItem)
  | select (select : Option SelectOption)
  | date (date : Option DateValue)
  deriving DecidableEq, Repr

/-- A JavaScript object used as a property table: keys in insertion order. -/
abbrev Properties := List (String × PropertyValue)

/-- A row of the Notion database, as returned by `notion.databases.query`. -/
structure NotionPage where
  id : String
  properties : Properties
  deriving DecidableEq, Repr

/-- A Google task: `title`, `status` and the optional `due` timestamp. -/
structure Task where
  id : String
  title : String
  status : String
  due : Option String
  deriving DecidableEq, Repr

/-- A Google task list together with its tasks (`getTaskListsAndTasks`). -/
structure TaskList where
  id : String
  title : String
  tasks : List Task
  deriving DecidableEq, Repr

/-- Argument of `notion.pages.create`. -/
structure CreateArgs where
  database_id : String
  properties : Properties
  deriving DecidableEq, Repr

/-- Argument of `notion.pages.update`: `page_id` and the optional keys
`archived` and `properties`. -/
structure UpdateArgs where
  page_id : String
  archived : Option Bool
  properties : Option Properties
  deriving DecidableEq, Repr

/-- A write call on the Notion client.  `blocksDelete` is the client's delete
endpoint; `app.js` has no call site for it. -/
inductive NotionCall where
  | pagesCreate (args : CreateArgs)
  | pagesUpdate (args : UpdateArgs)
  | blocksDelete (block_id : String)
  deriving DecidableEq, Repr

/-- A console line: `console.log(msg, detail)` or `console.error(msg, err)`. -/
inductive LogLine where
  | log (msg : String) (detail : String)
  | error (msg : String) (err : JsError)
  deriving DecidableEq, Repr

/-- Everything a cycle does to the outside: the write calls attempted on the
Notion client, in call order, and the console lines. -/
structure World where
  calls : List NotionCall
  console : List LogLine
  deriving DecidableEq, Repr

/-- The world at the start of a cycle. -/
def World.empty : World := ⟨[], []⟩

/-- The surroundings of a cycle: the configured database id and, for each
position in the sequence of write calls, whether that call rejects. -/
structure Env where
  notionDatabaseId : String
  rejects : Nat → Bool

/-! ## Effectful evaluation -/

/-- An effectful JavaScript computation: it transforms the world and either
returns a value or throws. -/
def Js (α : Type) : Type := World → Except JsError α × World

/-- Return a value. -/
def Js.pure {α : Type} (a : α) : Js α := fun w => (.ok a, w)

/-- Sequencing: a throw in the first computation skips the second. -/
def Js.bind {α β : Type} (x : Js α) (f : α → Js β) : Js β := fun w =>
  match x w with
  | (.ok a, w1) => f a w1
  | (.error e, w1) => (.error e, w1)

instance : Monad Js where
  pure := Js.pure
  bind := Js.bind

/-- Evaluation of a pure expression that may throw. -/
def Js.lift {α : Type} (x : Except JsError α) : Js α := fun w => (x, w)

/-- The statement `try { body } catch (error) { handler }`. -/
def Js.tryCatch {α : Type} (body : Js α) (handler : JsError → Js α) : Js α := fun w =>
  match body w with
  | (.ok a, w1) => (.ok a, w1)
  | (.error e, w1) => handler e w1

/-- The call `console.log(msg, detail)`. -/
def consoleLog (msg detail : String) : Js Unit := fun w =>
  (.ok (), { w with console := w.console ++ [.log msg detail] })

/-- The call `console.error(msg, err)`. -/
def consoleError (msg : String) (err : JsError) : Js Unit := fun w =>
  (.ok (), { w with console := w.console ++ [.error msg err] })

/-- An awaited write call on the Notion client: the call is recorded, and it
rejects when the environment says so for its position. -/
def awaitNotion (env : Env) (call : NotionCall) : Js Unit := fun w =>
  (if env.rejects w.calls.length then .error .rejected else .ok (),
   { w with calls := w.calls ++ [call] })

/-- The statement `for (const x of xs) { body }`. -/
def forOf {α : Type} : List α → (α → Js Unit) → Js Unit
  | [], _ => Js.pure ()
  | x :: xs, body => Js.bind (body x) (fun _ => forOf xs body)

/-- The method `Array.prototype.some` with a callback that may throw. -/
def arraySome {α : Type} (f : α → Except JsError Bool) : List α → Except JsError Bool
  | [] => .ok false
  | x :: xs =>
    match f x with
    | .error e => .error e
    | .ok true => .ok true
    | .ok false => arraySome f xs

/-- The method `Array.prototype.find` with a callback that may throw;
`none` is `undefined`. -/
def arrayFind {α : Type} (f : α → Except JsError Bool) : List α → Except JsError (Option α)
  | [] => .ok none
  | x :: xs =>
    match f x with
    | .error e => .error e
    | .ok true => .ok (some x)
    | .ok false => arrayFind f xs

/-! ## Property reads -/

/-- The expression `notionTask.properties['Name'].title[0].text.content`. -/
def nameContent (notionTask : NotionPage) : Except JsError String :=
  match notionTask.properties.lookup "Name" with
  | none => .error .typeError
  | some (.title title) =>
    match title with
    | [] => .error .typeError
    | item :: _ =>
      match item.text with
      | none => .error .typeError
      | some text => .ok text.content
  | some _ => .error .typeError

/-- The expression `notionTask.properties['Status'].select.name`. -/
def statusName (notionTask : NotionPage) : Except JsError String :=
  match notionTask.properties.lookup "Status" with
  | none => .error .typeError
  | some (.select select) =>
    match select with
    | none => .error .typeError
    | some option => .ok option.name
  | some _ => .error .typeError

/-- The assignment `properties[key] = value` on a property table. -/
def setProp : Properties → String → PropertyValue → Properties
  | [], key, value => [(key, value)]
  | (k, v) :: rest, key, value =>
    if k = key then (key, value) :: rest else (k, v) :: setProp rest key value

/-- JavaScript truthiness of a string: the empty string is falsy. -/
def truthy (s : String) : Bool := s != ""

/-- The expression `task.status === 'completed' ? 'Completed' : 'Not Started'`. -/
def derivedStatus (task : Task) : String :=
  if task.status = "completed" then "Completed" else "Not Started"

/-! ## The program -/

/-- The function `fetchTasksFromNotion`; `query` is the outcome of
`notion.databases.query`.  (The dump of the results on the console is left
out.) -/
def fetchTasksFromNotion (query : Except JsError (List NotionPage)) : Js (List NotionPage) :=
  Js.tryCatch (Js.lift query)
    (fun error => do
      consoleError "Error fetching tasks from Notion:" error
      pure [])

/-- The function `isNewTask`. -/
def isNewTask (task : Task) (notionTasks : List NotionPage) : Except JsError Bool :=
  match arraySome (fun notionTask =>
      match nameContent notionTask with
      | .error e => .error e
      | .ok content => .ok (decide (content = task.title))) notionTasks with
  | .error e => .error e
  | .ok b => .ok (!b)

/-- The object literal `properties` of `saveNewTasksToNotion` followed by the
conditional assignment of `'Due Date'`. -/
def newProperties (taskList : TaskList) (task : Task) : Properties :=
  let properties : Properties :=
    [ ("Name", .title [⟨some ⟨task.title⟩⟩]),
      ("TaskList", .rich_text [⟨some ⟨taskList.title⟩⟩]),
      ("Status", .select (some ⟨derivedStatus task⟩)) ]
  match task.due with
  | none => properties
  | some due =>
    if truthy due then setProp properties "Due Date" (.date (some ⟨due⟩)) else properties

/-- The body of the inner loop of `saveNewTasksToNotion`. -/
def saveTask (env : Env) (notionTasks : List NotionPage) (taskList : TaskList)
    (task : Task) : Js Unit := do
  if (← Js.lift (isNewTask task notionTasks)) then
    Js.tryCatch
      (awaitNotion env (.pagesCreate ⟨env.notionDatabaseId, newProperties taskList task⟩))
      (fun error => consoleError "Error saving task to Notion:" error)
  else pure ()

/-- The function `saveNewTasksToNotion`. -/
def saveNewTasksToNotion (env : Env) (taskListsWithTasks : List TaskList)
    (notionTasks : List NotionPage) : Js Unit :=
  forOf taskListsWithTasks (fun taskList =>
    forOf taskList.tasks (fun task => saveTask env notionTasks taskList task))

/-- The condition of `deleteTasksFromNotion` before negation:
`taskListsWithTasks.some(taskList => taskList.tasks.some(task => task.title === name))`. -/
def presentInGoogle (taskListsWithTasks : List TaskList) (notionTask : NotionPage) :
    Except JsError Bool :=
  arraySome (fun taskList =>
    arraySome (fun task =>
      match nameContent notionTask with
      | .error e => .error e
      | .ok content => .ok (decide (task.title = content))) taskList.tasks) taskListsWithTasks

/-- The body of the loop of `deleteTasksFromNotion`. -/
def deleteTask (env : Env) (taskListsWithTasks : List TaskList)
    (notionTask : NotionPage) : Js Unit := do
  if !(← Js.lift (presentInGoogle taskListsWithTasks notionTask)) then
    Js.tryCatch
      (do
        awaitNotion env (.pagesUpdate ⟨notionTask.id, some true, none⟩)
        let content ← Js.lift (nameContent notionTask)
        consoleLog "Task deleted from Notion:" content)
      (fun error => consoleError "Error deleting task from Notion:" error)
  else pure ()

/-- The function `deleteTasksFromNotion`. -/
def deleteTasksFromNotion (env : Env) (taskListsWithTasks : List TaskList)
    (notionTasks : List NotionPage) : Js Unit :=
  forOf notionTasks (fun notionTask => deleteTask env taskListsWithTasks notionTask)

/-- The expression `notionTasks.find(notionTask => name === task.title)`. -/
def findNotionTask (task : Task) (notionTasks : List NotionPage) :
    Except JsError (Option NotionPage) :=
  arrayFind (fun notionTask =>
    match nameContent notionTask with
    | .error e => .error e
    | .ok content => .ok (decide (content = task.title))) notionTasks

/-- The condition of `updateTaskStatusInNotion`:
`notionTask && notionTask.properties['Status'].select.name !== derived`. -/
def statusDiffers (task : Task) (found : Option NotionPage) : Except JsError Bool :=
  match found with
  | none => .ok false
  | some notionTask =>
    match statusName notionTask with
    | .error e => .error e
    | .ok name => .ok (decide (name ≠ derivedStatus task))

/-- The body of the inner loop of `updateTaskStatusInNotion`. -/
def updateTask (env : Env) (notionTasks : List NotionPage) (task : Task) : Js Unit := do
  let found ← Js.lift (findNotionTask task notionTasks)
  if (← Js.lift (statusDiffers task found)) then
    match found with
    | none => pure ()
    | some notionTask =>
      Js.tryCatch
        (do
          awaitNotion env (.pagesUpdate ⟨notionTask.id, none,
            some [("Status", .select (some ⟨derivedStatus task⟩))]⟩)
          consoleLog "Task status updated in Notion:" task.title)
        (fun error => consoleError "Error updating task status in Notion:" error)
  else pure ()

/-- The function `updateTaskStatusInNotion`. -/
def updateTaskStatusInNotion (env : Env) (taskListsWithTasks : List TaskList)
    (notionTasks : List NotionPage) : Js Unit :=
  forOf taskListsWithTasks (fun taskList =>
    forOf taskList.tasks (fun task => updateTask env notionTasks task))

/-- The function `fetchCompareAndSaveTasks`.  `google` is the outcome of
`getTaskListsAndTasks()` and `query` that of `notion.databases.query`; the
cycle starts from the world it is applied to.  (The dump of the task lists on
the console is left out.) -/
def fetchCompareAndSaveTasks (env : Env) (google : Except JsError (List TaskList))
    (query : Except JsError (List NotionPage)) : Js Unit :=
  Js.tryCatch
    (do
      let notionTasks ← fetchTasksFromNotion query
      let taskListsWithTasks ← Js.lift google
      saveNewTasksToNotion env taskListsWithTasks notionTasks
      deleteTasksFromNotion env taskListsWithTasks notionTasks
      updateTaskStatusInNotion env taskListsWithTasks notionTasks)
    (fun error => consoleError "Error fetching, comparing, and saving tasks:" error)

/-- The write calls attempted by one cycle, in call order. -/
def cycleCalls (env : Env) (taskListsWithTasks : List TaskList)
    (notionTasks : List NotionPage) : List NotionCall :=
  (fetchCompareAndSaveTasks env (.ok taskListsWithTasks) (.ok notionTasks) World.empty).2.calls

/-! ## Specification-side definitions -/

/-- The title string of a sink record: the text content of the first element
of its `Name` title array, when the record has a non-empty `Name` title array
whose first element has text. -/
def recordTitle (r : NotionPage) : Option String :=
  match r.properties.lookup "Name" with
  | some (.title (⟨some text⟩ :: _)) => some text.content
  | _ => none

/-- The stored status of a sink record: the name of its `Status` select, when
that select is not null. -/
def recordStatus (r : NotionPage) : Option String :=
  match r.properties.lookup "Status" with
  | some (.select (some option)) => some option.name
  | _ => none

/-- A sink record with a well-formed title. -/
def WellFormedTitle (r : NotionPage) : Prop := recordTitle r ≠ none

/-- A sink record with a well-formed status. -/
def WellFormedStatus (r : NotionPage) : Prop := recordStatus r ≠ none

/-- A well-formed sink record: well-formed title and status. -/
def WellFormed (r : NotionPage) : Prop := WellFormedTitle r ∧ WellFormedStatus r

instance (r : NotionPage) : Decidable (WellFormedTitle r) := by
  unfold WellFormedTitle; infer_instance

instance (r : NotionPage) : Decidable (WellFormedStatus r) := by
  unfold WellFormedStatus; infer_instance

instance (r : NotionPage) : Decidable (WellFormed r) := by
  unfold WellFormed; infer_instance

/-- New: a task whose title does not exactly equal the title of any sink
record. -/
def isNew (records : List NotionPage) (task : Task) : Bool :=
  records.all (fun r => recordTitle r != some task.title)

/-- Orphaned: a sink record whose title does not exactly equal the title of
any task across all task lists. -/
def isOrphan (taskLists : List TaskList) (r : NotionPage) : Bool :=
  taskLists.all (fun taskList => taskList.tasks.all (fun task => some task.title != recordTitle r))

/-- The first sink record, in iteration order, whose title equals the task
title. -/
def firstMatch (records : List NotionPage) (task : Task) : Option NotionPage :=
  records.find? (fun r => recordTitle r == some task.title)

/-- The create request for a task of a task list. -/
def createCall (env : Env) (taskList : TaskList) (task : Task) : NotionCall :=
  .pagesCreate ⟨env.notionDatabaseId, newProperties taskList task⟩

/-- The archive request for a sink record: its id and `archived = true`,
nothing else. -/
def archiveCall (r : NotionPage) : NotionCall :=
  .pagesUpdate ⟨r.id, some true, none⟩

/-- The status update request: a page id and only the `Status` field. -/
def statusCall (pageId : String) (status : String) : NotionCall :=
  .pagesUpdate ⟨pageId, none, some [("Status", .select (some ⟨status⟩))]⟩

/-- The create requests the specification asks for: one per new task, in
task-list order then task order. -/
def specCreates (env : Env) (taskLists : List TaskList) (records : List NotionPage) :
    List NotionCall :=
  taskLists.flatMap (fun taskList =>
    (taskList.tasks.filter (isNew records)).map (createCall env taskList))

/-- The archive requests the specification asks for: one per orphaned record,
in record order. -/
def specArchives (taskLists : List TaskList) (records : List NotionPage) : List NotionCall :=
  (records.filter (isOrphan taskLists)).map archiveCall

/-- The update request the specification asks for one task: none unless the
first matching record stores a status other than the derived one. -/
def specUpdateFor (records : List NotionPage) (task : Task) : List NotionCall :=
  match firstMatch records task with
  | none => []
  | some r =>
    if recordStatus r = some (derivedStatus task) then [] else [statusCall r.id (derivedStatus task)]

/-- The update requests the specification asks for, in task-list order then
task order. -/
def specUpdates (taskLists : List TaskList) (records : List NotionPage) : List NotionCall :=
  taskLists.flatMap (fun taskList => taskList.tasks.flatMap (specUpdateFor records))

/-- The calls a computation adds to the world it starts from. -/
def emitted (m : Js Unit) (w : World) : List NotionCall :=
  (m w).2.calls.drop w.calls.length

/-- A create request. -/
def IsCreate (c : NotionCall) : Prop := ∃ args, c = .pagesCreate args

/-- An archive request: `archived = true` and no properties. -/
def IsArchive (c : NotionCall) : Prop := ∃ pageId, c = .pagesUpdate ⟨pageId, some true, none⟩

/-- A status update request: only the `Status` property, no `archived` key. -/
def IsStatusUpdate (c : NotionCall) : Prop :=
  ∃ pageId status, c = statusCall pageId status

/-- A hard delete request. -/
def IsHardDelete (c : NotionCall) : Prop := ∃ blockId, c = .blocksDelete blockId

/-- A computation that, from every world, only appends calls satisfying `P`
to the calls already made. -/
def EmitsOnly {α : Type} (P : NotionCall → Prop) (m : Js α) : Prop :=
  ∀ w, ∃ extra, (m w).2.calls = w.calls ++ extra ∧ ∀ c ∈ extra, P c

/-- The due timestamp a task carries: its `due` string, unless absent or
empty. -/
def dueTimestamp (task : Task) : Option String :=
  task.due.filter (fun due => due != "")

/-- The record the specification asks to submit for a new task: `Name`,
`TaskList`, `Status`, and `Due Date` only when the task carries a due
timestamp. -/
def specRecord (taskList : TaskList) (task : Task) : Properties :=
  [ ("Name", .title [⟨some ⟨task.title⟩⟩]),
    ("TaskList", .rich_text [⟨some ⟨taskList.title⟩⟩]),
    ("Status", .select (some ⟨if task.status = "completed" then "Completed" else "Not Started"⟩)) ]
  ++ (match dueTimestamp task with
      | some due => [("Due Date", .date (some ⟨due⟩))]
      | none => [])

/-- Example environment: every write call succeeds. -/
def exampleEnv : Env := ⟨"db", fun _ => false⟩

/-- Example environment: every write call rejects. -/
def failingEnv : Env := ⟨"db", fun _ => true⟩

/-- Example snapshot: one list with task A open and task B completed. -/
def exampleTaskLists : List TaskList :=
  [⟨"l1", "My Tasks", [⟨"t1", "A", "needsAction", none⟩,
    ⟨"t2", "B", "completed", some "2024-05-01T00:00:00.000Z"⟩]⟩]

/-- Example sink record with a title and a status. -/
def examplePage (id title status : String) : NotionPage :=
  ⟨id, [("Name", .title [⟨some ⟨title⟩⟩]), ("Status", .select (some ⟨status⟩))]⟩

/-! ## The sink, as far as the idempotence property needs it -/

/-- The sink applying the properties of an update request to one page. -/
def updatePage (args : UpdateArgs) (page : NotionPage) : NotionPage :=
  if page.id = args.page_id then
    match args.properties with
    | none => page
    | some props => ⟨page.id, props.foldl (fun acc kv => setProp acc kv.1 kv.2) page.properties⟩
  else page

/-- The effect of one successful write on the collection a query returns: a
created page is appended under an id chosen by the sink, an archived page
leaves the collection, a property update overwrites the given properties of
the page with that id. -/
def applyCall (freshId : List NotionPage → String) (pages : List NotionPage) :
    NotionCall → List NotionPage
  | .pagesCreate args => pages ++ [⟨freshId pages, args.properties⟩]
  | .pagesUpdate args =>
    if args.archived = some true then pages.filter (fun page => page.id != args.page_id)
    else pages.map (updatePage args)
  | .blocksDelete blockId => pages.filter (fun page => page.id != blockId)

/-- The effect of a sequence of successful writes, in call order. -/
def applyCalls (freshId : List NotionPage → String) (pages : List NotionPage)
    (calls : List NotionCall) : List NotionPage :=
  calls.foldl (applyCall freshId) pages

/-- The updates of a sequence of calls, applied to one page. -/
def updatesOn (calls : List NotionCall) (page : NotionPage) : NotionPage :=
  calls.foldl (fun q c =>
    match c with
    | .pagesUpdate args => updatePage args q
    | _ => q) page

/-- The calls of a cycle that succeeded: those at positions the environment
does not reject. -/
def succeeded (env : Env) (calls : List NotionCall) : List NotionCall :=
  (calls.enum.filter (fun ic => !env.rejects ic.1)).map Prod.snd

/-- Example id supply of the sink: `n`, `nn`, `nnn`, ... by the size of the
collection. -/
def exampleFreshId (pages : List NotionPage) : String :=
  String.mk (List.replicate (pages.length + 1) 'n')

/-- Example snapshot: two tasks titled A, one open and one completed. -/
def duplicateTitleTaskLists : List TaskList :=
  [⟨"l1", "My Tasks", [⟨"t1", "A", "needsAction", none⟩, ⟨"t2", "A", "completed", none⟩]⟩]

/-! ## Evaluation lemmas -/

theorem nameContent_of_title {r : NotionPage} {s : String} (h : recordTitle r = some s) :
    nameContent r = .ok s := by
  unfold recordTitle at h
  unfold nameContent
  split at h
  · rename_i text rest heq
    rw [heq]
    simp only [Option.some.injEq] at h
    simp [h]
  · exact absurd h (by simp)

theorem statusName_of_status {r : NotionPage} {s : String} (h : recordStatus r = some s) :
    statusName r = .ok s := by
  unfold recordStatus at h
  unfold statusName
  split at h
  · rename_i option heq
    rw [heq]
    simp only [Option.some.injEq] at h
    simp [h]
  · exact absurd h (by simp)

theorem arraySome_ok {α : Type} (f : α → Except JsError Bool) (g : α → Bool) (xs : List α)
    (h : ∀ x ∈ xs, f x = .ok (g x)) : arraySome f xs = .ok (xs.any g) := by
  induction xs with
  | nil => rfl
  | cons x xs ih =>
    have hx := h x (List.mem_cons_self _ _)
    have ih1 := ih (fun y hy => h y (List.mem_cons_of_mem _ hy))
    unfold arraySome
    rw [hx]
    cases hg : g x <;> simp [ih1, hg]

theorem arrayFind_ok {α : Type} (f : α → Except JsError Bool) (g : α → Bool) (xs : List α)
    (h : ∀ x ∈ xs, f x = .ok (g x)) : arrayFind f xs = .ok (xs.find? g) := by
  induction xs with
  | nil => rfl
  | cons x xs ih =>
    have hx := h x (List.mem_cons_self _ _)
    have ih1 := ih (fun y hy => h y (List.mem_cons_of_mem _ hy))
    unfold arrayFind
    rw [hx]
    cases hg : g x <;> simp [ih1, hg, List.find?_cons]

theorem isNewTask_ok (task : Task) (records : List NotionPage)
    (hwf : ∀ r ∈ records, WellFormedTitle r) :
    isNewTask task records = .ok (isNew records task) := by
  unfold isNewTask
  rw [arraySome_ok _ (fun r => recordTitle r == some task.title)]
  · simp only [isNew]
    congr 1
    induction records with
    | nil => rfl
    | cons r rs ih =>
      simp only [List.any_cons, List.all_cons, Bool.not_or]
      rw [ih (fun y hy => hwf y (List.mem_cons_of_mem _ hy))]
      rfl
  · intro r hr
    have hw := hwf r hr
    unfold WellFormedTitle at hw
    obtain ⟨s, hs⟩ := Option.ne_none_iff_exists'.mp hw
    rw [nameContent_of_title hs, hs]
    by_cases hst : s = task.title <;> simp [hst]


theorem forOf_run {α : Type} (body : α → Js Unit) (spec : α → List NotionCall) (xs : List α)
    (h : ∀ x ∈ xs, ∀ w, (body x w).1 = .ok () ∧ (body x w).2.calls = w.calls ++ spec x) :
    ∀ w, (forOf xs body w).1 = .ok () ∧
      (forOf xs body w).2.calls = w.calls ++ xs.flatMap spec := by
  induction xs with
  | nil => intro w; simp [forOf, Js.pure]
  | cons x xs ih =>
    intro w
    obtain ⟨h1, h2⟩ := h x (List.mem_cons_self _ _) w
    have ih1 := ih (fun y hy => h y (List.mem_cons_of_mem _ hy))
    unfold forOf Js.bind
    rcases hres : body x w with ⟨res, w1⟩
    rw [hres] at h1 h2
    simp only at h1 h2
    subst h1
    obtain ⟨i1, i2⟩ := ih1 w1
    simp only [List.flatMap_cons]
    exact ⟨i1, by rw [i2, h2, List.append_assoc]⟩

theorem saveTask_run (env : Env) (records : List NotionPage) (taskList : TaskList) (task : Task)
    (hwf : ∀ r ∈ records, WellFormedTitle r) (w : World) :
    (saveTask env records taskList task w).1 = .ok () ∧
      (saveTask env records taskList task w).2.calls =
        w.calls ++ (if isNew records task then [createCall env taskList task] else []) := by
  unfold saveTask
  simp only [bind, Js.bind, Js.lift, isNewTask_ok task records hwf, pure, Js.pure]
  cases isNew records task
  · simp [Js.pure]
  · simp only [if_true, Js.tryCatch, awaitNotion, consoleError, createCall]
    cases env.rejects w.calls.length <;> simp

theorem saveNewTasksToNotion_run (env : Env) (taskLists : List TaskList)
    (records : List NotionPage) (hwf : ∀ r ∈ records, WellFormedTitle r) (w : World) :
    (saveNewTasksToNotion env taskLists records w).1 = .ok () ∧
      (saveNewTasksToNotion env taskLists records w).2.calls =
        w.calls ++ specCreates env taskLists records := by
  unfold saveNewTasksToNotion specCreates
  refine forOf_run _ _ taskLists (fun taskList _ w1 => ?_) w
  have hinner := forOf_run (fun task => saveTask env records taskList task)
    (fun task => if isNew records task then [createCall env taskList task] else [])
    taskList.tasks (fun task _ w2 => saveTask_run env records taskList task hwf w2) w1
  refine ⟨hinner.1, ?_⟩
  rw [hinner.2]
  congr 1
  generalize taskList.tasks = ts
  induction ts with
  | nil => rfl
  | cons t ts ih =>
    simp only [List.flatMap_cons, List.filter_cons, ih]
    cases isNew records t <;> simp


theorem presentInGoogle_ok (taskLists : List TaskList) (r : NotionPage)
    (hr : WellFormedTitle r) :
    presentInGoogle taskLists r = .ok (!isOrphan taskLists r) := by
  obtain ⟨s, hs⟩ := Option.ne_none_iff_exists'.mp hr
  unfold presentInGoogle
  rw [arraySome_ok _ (fun taskList => taskList.tasks.any (fun task => some task.title == recordTitle r))]
  · congr 1
    unfold isOrphan
    induction taskLists with
    | nil => rfl
    | cons tl tls ih =>
      simp only [List.any_cons, List.all_cons, Bool.not_and, ih, Bool.not_not]
      congr 1
      generalize tl.tasks = ts
      induction ts with
      | nil => rfl
      | cons t ts iht =>
        simp only [List.any_cons, List.all_cons, Bool.not_and, iht]
        cases hc : (some t.title == recordTitle r) <;> simp [bne, hc]
  · intro taskList _
    rw [arraySome_ok _ (fun task => some task.title == recordTitle r)]
    intro task _
    rw [nameContent_of_title hs, hs]
    by_cases hst : task.title = s <;> simp [hst]

theorem deleteTask_run (env : Env) (taskLists : List TaskList) (r : NotionPage)
    (hr : WellFormedTitle r) (w : World) :
    (deleteTask env taskLists r w).1 = .ok () ∧
      (deleteTask env taskLists r w).2.calls =
        w.calls ++ (if isOrphan taskLists r then [archiveCall r] else []) := by
  obtain ⟨s, hs⟩ := Option.ne_none_iff_exists'.mp hr
  unfold deleteTask
  simp only [bind, Js.bind, Js.lift, presentInGoogle_ok taskLists r hr, pure, Js.pure,
    nameContent_of_title hs]
  cases isOrphan taskLists r
  · simp [Js.pure]
  · simp only [Bool.not_true, Bool.not_false, if_true, Js.tryCatch, awaitNotion, consoleError,
      consoleLog, archiveCall, Js.bind, Js.lift]
    cases env.rejects w.calls.length <;> simp

theorem deleteTasksFromNotion_run (env : Env) (taskLists : List TaskList)
    (records : List NotionPage) (hwf : ∀ r ∈ records, WellFormedTitle r) (w : World) :
    (deleteTasksFromNotion env taskLists records w).1 = .ok () ∧
      (deleteTasksFromNotion env taskLists records w).2.calls =
        w.calls ++ specArchives taskLists records := by
  unfold deleteTasksFromNotion specArchives
  have hloop := forOf_run (fun r => deleteTask env taskLists r)
    (fun r => if isOrphan taskLists r then [archiveCall r] else [])
    records (fun r hr w1 => deleteTask_run env taskLists r (hwf r hr) w1) w
  refine ⟨hloop.1, ?_⟩
  rw [hloop.2]
  congr 1
  clear hloop hwf
  induction records with
  | nil => rfl
  | cons r rs ih =>
    simp only [List.flatMap_cons, List.filter_cons, ih]
    cases isOrphan taskLists r <;> simp

theorem findNotionTask_ok (task : Task) (records : List NotionPage)
    (hwf : ∀ r ∈ records, WellFormedTitle r) :
    findNotionTask task records = .ok (firstMatch records task) := by
  unfold findNotionTask firstMatch
  apply arrayFind_ok
  intro r hr
  obtain ⟨s, hs⟩ := Option.ne_none_iff_exists'.mp (hwf r hr)
  rw [nameContent_of_title hs, hs]
  by_cases hst : s = task.title <;> simp [hst]

theorem updateTask_run (env : Env) (records : List NotionPage) (task : Task)
    (hwf : ∀ r ∈ records, WellFormed r) (w : World) :
    (updateTask env records task w).1 = .ok () ∧
      (updateTask env records task w).2.calls = w.calls ++ specUpdateFor records task := by
  unfold updateTask specUpdateFor
  simp only [bind, Js.bind, Js.lift, findNotionTask_ok task records (fun r hr => (hwf r hr).1),
    pure, Js.pure]
  cases hfm : firstMatch records task with
  | none => simp [statusDiffers, Js.pure]
  | some r =>
    have hmem : r ∈ records := List.mem_of_find?_eq_some hfm
    obtain ⟨st, hst⟩ := Option.ne_none_iff_exists'.mp (hwf r hmem).2
    simp only [statusDiffers, statusName_of_status hst, hst, Option.some.injEq]
    by_cases hd : st = derivedStatus task
    · simp [hd, Js.pure]
    · simp only [hd, ne_eq, not_false_eq_true, decide_True, if_true, if_false, Js.tryCatch,
        awaitNotion, consoleError, consoleLog, statusCall, Js.bind]
      cases env.rejects w.calls.length <;> simp

theorem updateTaskStatusInNotion_run (env : Env) (taskLists : List TaskList)
    (records : List NotionPage) (hwf : ∀ r ∈ records, WellFormed r) (w : World) :
    (updateTaskStatusInNotion env taskLists records w).1 = .ok () ∧
      (updateTaskStatusInNotion env taskLists records w).2.calls =
        w.calls ++ specUpdates taskLists records := by
  unfold updateTaskStatusInNotion specUpdates
  refine forOf_run _ _ taskLists (fun taskList _ w1 => ?_) w
  exact forOf_run (fun task => updateTask env records task) (specUpdateFor records)
    taskList.tasks (fun task _ w2 => updateTask_run env records task hwf w2) w1

/-! ## Shape of the emitted calls, for arbitrary inputs -/

theorem EmitsOnly.mono {α : Type} {P Q : NotionCall → Prop} {m : Js α}
    (hPQ : ∀ c, P c → Q c) (h : EmitsOnly P m) : EmitsOnly Q m := by
  intro w
  obtain ⟨extra, h1, h2⟩ := h w
  exact ⟨extra, h1, fun c hc => hPQ c (h2 c hc)⟩

theorem emitsOnly_pure {α : Type} (P : NotionCall → Prop) (a : α) :
    EmitsOnly P (Js.pure a) :=
  fun w => ⟨[], by simp [Js.pure], by simp⟩

theorem emitsOnly_lift {α : Type} (P : NotionCall → Prop) (x : Except JsError α) :
    EmitsOnly P (Js.lift x) :=
  fun w => ⟨[], by simp [Js.lift], by simp⟩

theorem emitsOnly_consoleError (P : NotionCall → Prop) (msg : String) (e : JsError) :
    EmitsOnly P (consoleError msg e) :=
  fun w => ⟨[], by simp [consoleError], by simp⟩

theorem emitsOnly_consoleLog (P : NotionCall → Prop) (msg detail : String) :
    EmitsOnly P (consoleLog msg detail) :=
  fun w => ⟨[], by simp [consoleLog], by simp⟩

theorem emitsOnly_awaitNotion {P : NotionCall → Prop} (env : Env) (call : NotionCall)
    (h : P call) : EmitsOnly P (awaitNotion env call) :=
  fun w => ⟨[call], by simp [awaitNotion], by simpa using h⟩

theorem emitsOnly_bind {α β : Type} {P : NotionCall → Prop} {x : Js α} {f : α → Js β}
    (hx : EmitsOnly P x) (hf : ∀ a, EmitsOnly P (f a)) : EmitsOnly P (Js.bind x f) := by
  intro w
  obtain ⟨e1, h1, p1⟩ := hx w
  unfold Js.bind
  rcases hres : x w with ⟨res, w1⟩
  rw [hres] at h1
  simp only at h1
  cases res with
  | error e => exact ⟨e1, h1, p1⟩
  | ok a =>
    obtain ⟨e2, h2, p2⟩ := hf a w1
    refine ⟨e1 ++ e2, ?_, ?_⟩
    · simp only [h2, h1, List.append_assoc]
    · intro c hc
      rcases List.mem_append.mp hc with hc | hc
      · exact p1 c hc
      · exact p2 c hc

theorem emitsOnly_tryCatch {α : Type} {P : NotionCall → Prop} {body : Js α}
    {handler : JsError → Js α} (hb : EmitsOnly P body) (hh : ∀ e, EmitsOnly P (handler e)) :
    EmitsOnly P (Js.tryCatch body handler) := by
  intro w
  obtain ⟨e1, h1, p1⟩ := hb w
  unfold Js.tryCatch
  rcases hres : body w with ⟨res, w1⟩
  rw [hres] at h1
  simp only at h1
  cases res with
  | ok a => exact ⟨e1, h1, p1⟩
  | error e =>
    obtain ⟨e2, h2, p2⟩ := hh e w1
    refine ⟨e1 ++ e2, ?_, ?_⟩
    · simp only [h2, h1, List.append_assoc]
    · intro c hc
      rcases List.mem_append.mp hc with hc | hc
      · exact p1 c hc
      · exact p2 c hc

theorem emitsOnly_forOf {α : Type} {P : NotionCall → Prop} (xs : List α) (body : α → Js Unit)
    (h : ∀ x, EmitsOnly P (body x)) : EmitsOnly P (forOf xs body) := by
  induction xs with
  | nil => exact emitsOnly_pure P ()
  | cons x xs ih => exact emitsOnly_bind (h x) (fun _ => ih)

theorem saveTask_emits (env : Env) (records : List NotionPage) (taskList : TaskList)
    (task : Task) : EmitsOnly IsCreate (saveTask env records taskList task) := by
  unfold saveTask
  refine emitsOnly_bind (emitsOnly_lift _ _) (fun b => ?_)
  cases b
  · exact emitsOnly_pure _ ()
  · exact emitsOnly_tryCatch (emitsOnly_awaitNotion env _ ⟨_, rfl⟩)
      (fun e => emitsOnly_consoleError _ _ e)

theorem saveNewTasksToNotion_emits (env : Env) (taskLists : List TaskList)
    (records : List NotionPage) :
    EmitsOnly IsCreate (saveNewTasksToNotion env taskLists records) :=
  emitsOnly_forOf _ _ (fun taskList =>
    emitsOnly_forOf _ _ (fun task => saveTask_emits env records taskList task))

theorem deleteTask_emits (env : Env) (taskLists : List TaskList) (r : NotionPage) :
    EmitsOnly IsArchive (deleteTask env taskLists r) := by
  unfold deleteTask
  refine emitsOnly_bind (emitsOnly_lift _ _) (fun b => ?_)
  cases b
  · exact emitsOnly_tryCatch
      (emitsOnly_bind (emitsOnly_awaitNotion env _ ⟨_, rfl⟩)
        (fun _ => emitsOnly_bind (emitsOnly_lift _ _) (fun _ => emitsOnly_consoleLog _ _ _)))
      (fun e => emitsOnly_consoleError _ _ e)
  · exact emitsOnly_pure _ ()

theorem deleteTasksFromNotion_emits (env : Env) (taskLists : List TaskList)
    (records : List NotionPage) :
    EmitsOnly IsArchive (deleteTasksFromNotion env taskLists records) :=
  emitsOnly_forOf _ _ (fun r => deleteTask_emits env taskLists r)

theorem updateTask_emits (env : Env) (records : List NotionPage) (task : Task) :
    EmitsOnly IsStatusUpdate (updateTask env records task) := by
  unfold updateTask
  refine emitsOnly_bind (emitsOnly_lift _ _) (fun found => ?_)
  refine emitsOnly_bind (emitsOnly_lift _ _) (fun b => ?_)
  cases b
  · exact emitsOnly_pure _ ()
  · cases found with
    | none => exact emitsOnly_pure _ ()
    | some r =>
      exact emitsOnly_tryCatch
        (emitsOnly_bind (emitsOnly_awaitNotion env _ ⟨_, _, rfl⟩)
          (fun _ => emitsOnly_consoleLog _ _ _))
        (fun e => emitsOnly_consoleError _ _ e)

theorem updateTaskStatusInNotion_emits (env : Env) (taskLists : List TaskList)
    (records : List NotionPage) :
    EmitsOnly IsStatusUpdate (updateTaskStatusInNotion env taskLists records) :=
  emitsOnly_forOf _ _ (fun _ =>
    emitsOnly_forOf _ _ (fun task => updateTask_emits env records task))

theorem fetchTasksFromNotion_emits (P : NotionCall → Prop)
    (query : Except JsError (List NotionPage)) : EmitsOnly P (fetchTasksFromNotion query) :=
  emitsOnly_tryCatch (emitsOnly_lift _ _)
    (fun e => emitsOnly_bind (emitsOnly_consoleError _ _ e) (fun _ => emitsOnly_pure _ _))

theorem fetchCompareAndSaveTasks_emits (env : Env) (google : Except JsError (List TaskList))
    (query : Except JsError (List NotionPage)) :
    EmitsOnly (fun c => IsCreate c ∨ IsArchive c ∨ IsStatusUpdate c)
      (fetchCompareAndSaveTasks env google query) := by
  unfold fetchCompareAndSaveTasks
  refine emitsOnly_tryCatch ?_ (fun e => emitsOnly_consoleError _ _ e)
  refine emitsOnly_bind (fetchTasksFromNotion_emits _ query) (fun records => ?_)
  refine emitsOnly_bind (emitsOnly_lift _ _) (fun taskLists => ?_)
  refine emitsOnly_bind ((saveNewTasksToNotion_emits env taskLists records).mono
    (fun c hc => Or.inl hc)) (fun _ => ?_)
  refine emitsOnly_bind ((deleteTasksFromNotion_emits env taskLists records).mono
    (fun c hc => Or.inr (Or.inl hc))) (fun _ => ?_)
  exact (updateTaskStatusInNotion_emits env taskLists records).mono
    (fun c hc => Or.inr (Or.inr hc))


/-! ## Helper lemmas on the specification side -/

theorem emitted_eq {m : Js Unit} {w : World} {extra : List NotionCall}
    (h : (m w).2.calls = w.calls ++ extra) : emitted m w = extra := by
  unfold emitted
  rw [h, List.drop_left]

theorem isNew_iff (records : List NotionPage) (task : Task) :
    isNew records task = true ↔ ∀ r ∈ records, recordTitle r ≠ some task.title := by
  simp [isNew]

theorem isOrphan_iff (taskLists : List TaskList) (r : NotionPage) :
    isOrphan taskLists r = true ↔
      ∀ taskList ∈ taskLists, ∀ task ∈ taskList.tasks, recordTitle r ≠ some task.title := by
  simp only [isOrphan, List.all_eq_true, bne_iff_ne, ne_eq]
  constructor
  · intro h tl htl t ht heq
    exact h tl htl t ht heq.symm
  · intro h tl htl t ht heq
    exact h tl htl t ht heq.symm

theorem firstMatch_some {records : List NotionPage} {task : Task} {r : NotionPage}
    (h : firstMatch records task = some r) : r ∈ records ∧ recordTitle r = some task.title := by
  unfold firstMatch at h
  refine ⟨List.mem_of_find?_eq_some h, ?_⟩
  have := List.find?_some h
  simpa using this

theorem firstMatch_isSome_iff (records : List NotionPage) (task : Task) :
    (firstMatch records task).isSome = true ↔ ∃ r ∈ records, recordTitle r = some task.title := by
  simp [firstMatch]

theorem firstMatch_none_iff (records : List NotionPage) (task : Task) :
    firstMatch records task = none ↔ isNew records task = true := by
  simp [firstMatch, isNew]

theorem specCreates_nil (env : Env) (taskLists : List TaskList) :
    specCreates env taskLists [] =
      taskLists.flatMap (fun taskList => taskList.tasks.map (createCall env taskList)) := by
  unfold specCreates
  congr 1
  funext taskList
  congr 1
  apply List.filter_eq_self.mpr
  intro t _
  simp [isNew]

theorem specArchives_nil (taskLists : List TaskList) : specArchives taskLists [] = [] := rfl

theorem specUpdates_nil (taskLists : List TaskList) : specUpdates taskLists [] = [] := by
  simp [specUpdates, specUpdateFor, firstMatch]

/-- The three phases of a cycle, run in sequence from any world, on
well-formed records. -/
theorem phases_run (env : Env) (taskLists : List TaskList) (records : List NotionPage)
    (hwf : ∀ r ∈ records, WellFormed r) (w : World) :
    (Js.bind (saveNewTasksToNotion env taskLists records) (fun _ =>
      Js.bind (deleteTasksFromNotion env taskLists records) (fun _ =>
        updateTaskStatusInNotion env taskLists records)) w).1 = .ok () ∧
    (Js.bind (saveNewTasksToNotion env taskLists records) (fun _ =>
      Js.bind (deleteTasksFromNotion env taskLists records) (fun _ =>
        updateTaskStatusInNotion env taskLists records)) w).2.calls =
      w.calls ++ (specCreates env taskLists records ++ specArchives taskLists records ++
        specUpdates taskLists records) := by
  have hwt : ∀ r ∈ records, WellFormedTitle r := fun r hr => (hwf r hr).1
  simp only [Js.bind]
  obtain ⟨a1, a2⟩ := saveNewTasksToNotion_run env taskLists records hwt w
  rcases hs : saveNewTasksToNotion env taskLists records w with ⟨res1, w1⟩
  rw [hs] at a1 a2
  simp only at a1 a2
  subst a1
  obtain ⟨b1, b2⟩ := deleteTasksFromNotion_run env taskLists records hwt w1
  rcases hd : deleteTasksFromNotion env taskLists records w1 with ⟨res2, w2⟩
  rw [hd] at b1 b2
  simp only at b1 b2
  subst b1
  obtain ⟨c1, c2⟩ := updateTaskStatusInNotion_run env taskLists records hwf w2
  simp only [hd, c1, c2, b2, a2, List.append_assoc, and_self]

theorem tryCatch_of_ok {body : Js Unit} {handler : JsError → Js Unit} {w : World}
    (h : (body w).1 = .ok ()) : Js.tryCatch body handler w = body w := by
  unfold Js.tryCatch
  rcases hres : body w with ⟨res, w1⟩
  rw [hres] at h
  simp only at h
  subst h
  rfl

theorem cycle_unfold_ok (env : Env) (taskLists : List TaskList) (records : List NotionPage)
    (w : World) :
    fetchCompareAndSaveTasks env (.ok taskLists) (.ok records) w =
      Js.tryCatch
        (Js.bind (saveNewTasksToNotion env taskLists records) (fun _ =>
          Js.bind (deleteTasksFromNotion env taskLists records) (fun _ =>
            updateTaskStatusInNotion env taskLists records)))
        (fun error => consoleError "Error fetching, comparing, and saving tasks:" error) w :=
  rfl

theorem cycle_unfold_error (env : Env) (taskLists : List TaskList) (e : JsError) (w : World) :
    fetchCompareAndSaveTasks env (.ok taskLists) (.error e) w =
      Js.tryCatch
        (Js.bind (saveNewTasksToNotion env taskLists []) (fun _ =>
          Js.bind (deleteTasksFromNotion env taskLists []) (fun _ =>
            updateTaskStatusInNotion env taskLists [])))
        (fun error => consoleError "Error fetching, comparing, and saving tasks:" error)
        { w with console := w.console ++ [.error "Error fetching tasks from Notion:" e] } :=
  rfl

theorem cycleCalls_eq (env : Env) (taskLists : List TaskList) (records : List NotionPage)
    (hwf : ∀ r ∈ records, WellFormed r) :
    cycleCalls env taskLists records =
      specCreates env taskLists records ++ specArchives taskLists records ++
        specUpdates taskLists records := by
  obtain ⟨h1, h2⟩ := phases_run env taskLists records hwf World.empty
  unfold cycleCalls
  rw [cycle_unfold_ok, tryCatch_of_ok h1, h2]
  rfl

theorem newProperties_eq (taskList : TaskList) (task : Task) :
    newProperties taskList task = specRecord taskList task := by
  unfold newProperties specRecord dueTimestamp derivedStatus
  cases hdue : task.due with
  | none => simp
  | some due =>
    by_cases he : due = ""
    · simp [truthy, he, Option.filter]
    · simp [truthy, he, Option.filter, setProp]

/-! ## The sink after one cycle -/

theorem lookup_setProp_self (props : Properties) (key : String) (value : PropertyValue) :
    (setProp props key value).lookup key = some value := by
  induction props with
  | nil => simp [setProp, List.lookup]
  | cons kv rest ih =>
    obtain ⟨k, v⟩ := kv
    unfold setProp
    by_cases h : k = key
    · simp [h, List.lookup]
    · have h2 : (key == k) = false := by simpa using fun h3 : key = k => h h3.symm
      simp [h, List.lookup, h2, ih]

theorem lookup_setProp_ne (props : Properties) (key other : String) (value : PropertyValue)
    (hne : other ≠ key) : (setProp props key value).lookup other = props.lookup other := by
  induction props with
  | nil =>
    have h2 : (other == key) = false := by simpa using hne
    simp [setProp, List.lookup, h2]
  | cons kv rest ih =>
    obtain ⟨k, v⟩ := kv
    unfold setProp
    by_cases h : k = key
    · subst h
      have h2 : (other == k) = false := by simpa using hne
      simp [List.lookup, h2]
    · simp only [h, if_false, List.lookup]
      cases hok : other == k <;> simp [ih]

theorem updatePage_id (args : UpdateArgs) (page : NotionPage) :
    (updatePage args page).id = page.id := by
  unfold updatePage
  split
  · split <;> rfl
  · rfl

theorem updatePage_miss (args : UpdateArgs) (page : NotionPage) (h : page.id ≠ args.page_id) :
    updatePage args page = page := by
  simp [updatePage, h]

theorem updatePage_status_title (pageId status : String) (page : NotionPage) :
    recordTitle (updatePage ⟨pageId, none, some [("Status", .select (some ⟨status⟩))]⟩ page) =
      recordTitle page := by
  unfold updatePage
  split
  · simp only [List.foldl_cons, List.foldl_nil, recordTitle]
    rw [lookup_setProp_ne _ _ _ _ (by decide)]
  · rfl

theorem updatePage_status_hit (pageId status : String) (page : NotionPage)
    (h : page.id = pageId) :
    recordStatus (updatePage ⟨pageId, none, some [("Status", .select (some ⟨status⟩))]⟩ page) =
      some status := by
  simp [updatePage, h, recordStatus, lookup_setProp_self]

theorem updatesOn_nil (page : NotionPage) : updatesOn [] page = page := rfl

theorem updatesOn_cons_status (pageId status : String) (us : List NotionCall)
    (page : NotionPage) :
    updatesOn (statusCall pageId status :: us) page =
      updatesOn us (updatePage ⟨pageId, none, some [("Status", .select (some ⟨status⟩))]⟩ page) :=
  rfl

theorem updatesOn_id (us : List NotionCall) (hus : ∀ c ∈ us, IsStatusUpdate c)
    (page : NotionPage) : (updatesOn us page).id = page.id := by
  induction us generalizing page with
  | nil => rfl
  | cons c us ih =>
    obtain ⟨pageId, status, rfl⟩ := hus c (List.mem_cons_self _ _)
    rw [updatesOn_cons_status, ih (fun c hc => hus c (List.mem_cons_of_mem _ hc)), updatePage_id]

theorem updatesOn_title (us : List NotionCall) (hus : ∀ c ∈ us, IsStatusUpdate c)
    (page : NotionPage) : recordTitle (updatesOn us page) = recordTitle page := by
  induction us generalizing page with
  | nil => rfl
  | cons c us ih =>
    obtain ⟨pageId, status, rfl⟩ := hus c (List.mem_cons_self _ _)
    rw [updatesOn_cons_status, ih (fun c hc => hus c (List.mem_cons_of_mem _ hc)),
      updatePage_status_title]

theorem updatesOn_untouched (us : List NotionCall) (hus : ∀ c ∈ us, IsStatusUpdate c)
    (page : NotionPage) (h : ∀ pageId status, statusCall pageId status ∈ us → pageId ≠ page.id) :
    updatesOn us page = page := by
  induction us generalizing page with
  | nil => rfl
  | cons c us ih =>
    obtain ⟨pageId, status, rfl⟩ := hus c (List.mem_cons_self _ _)
    have hne : page.id ≠ pageId := fun heq => h pageId status (List.mem_cons_self _ _) heq.symm
    rw [updatesOn_cons_status, updatePage_miss _ _ hne]
    exact ih (fun c hc => hus c (List.mem_cons_of_mem _ hc)) page
      (fun i st hm => h i st (List.mem_cons_of_mem _ hm))

theorem updatesOn_status (us : List NotionCall) (hus : ∀ c ∈ us, IsStatusUpdate c)
    (wanted : String) (page : NotionPage)
    (hall : ∀ status, statusCall page.id status ∈ us → status = wanted)
    (hsome : recordStatus page = some wanted ∨ ∃ status, statusCall page.id status ∈ us) :
    recordStatus (updatesOn us page) = some wanted := by
  induction us generalizing page with
  | nil =>
    rcases hsome with h | ⟨status, h⟩
    · exact h
    · cases h
  | cons c us ih =>
    obtain ⟨pageId, status, rfl⟩ := hus c (List.mem_cons_self _ _)
    rw [updatesOn_cons_status]
    have hus1 : ∀ c ∈ us, IsStatusUpdate c := fun c hc => hus c (List.mem_cons_of_mem _ hc)
    apply ih hus1
    · intro st hst
      rw [updatePage_id] at hst
      exact hall st (List.mem_cons_of_mem _ hst)
    · by_cases hid : page.id = pageId
      · left
        rw [updatePage_status_hit _ _ _ hid]
        subst hid
        rw [hall status (List.mem_cons_self _ _)]
      · rw [updatePage_miss _ _ hid]
        rcases hsome with h | ⟨st, h⟩
        · exact Or.inl h
        · right
          rcases List.mem_cons.mp h with h | h
          · simp only [statusCall, NotionCall.pagesUpdate.injEq, UpdateArgs.mk.injEq] at h
            exact absurd h.1 hid
          · exact ⟨st, h⟩

theorem updatesOn_wellFormedStatus (us : List NotionCall) (hus : ∀ c ∈ us, IsStatusUpdate c)
    (page : NotionPage) (h : WellFormedStatus page) : WellFormedStatus (updatesOn us page) := by
  induction us generalizing page with
  | nil => exact h
  | cons c us ih =>
    obtain ⟨pageId, status, rfl⟩ := hus c (List.mem_cons_self _ _)
    rw [updatesOn_cons_status]
    apply ih (fun c hc => hus c (List.mem_cons_of_mem _ hc))
    by_cases hid : page.id = pageId
    · unfold WellFormedStatus
      rw [updatePage_status_hit _ _ _ hid]
      simp
    · rw [updatePage_miss _ _ hid]
      exact h

theorem applyCalls_append (freshId : List NotionPage → String) (pages : List NotionPage)
    (xs ys : List NotionCall) :
    applyCalls freshId pages (xs ++ ys) = applyCalls freshId (applyCalls freshId pages xs) ys := by
  simp [applyCalls, List.foldl_append]

theorem applyCalls_updates (freshId : List NotionPage → String) (us : List NotionCall)
    (hus : ∀ c ∈ us, IsStatusUpdate c) (pages : List NotionPage) :
    applyCalls freshId pages us = pages.map (updatesOn us) := by
  induction us generalizing pages with
  | nil =>
    have hid : updatesOn [] = id := funext updatesOn_nil
    simp [applyCalls, hid]
  | cons c us ih =>
    obtain ⟨pageId, status, rfl⟩ := hus c (List.mem_cons_self _ _)
    have hstep : applyCalls freshId pages (statusCall pageId status :: us) =
        applyCalls freshId
          (pages.map (updatePage ⟨pageId, none, some [("Status", .select (some ⟨status⟩))]⟩)) us :=
      rfl
    rw [hstep, ih (fun c hc => hus c (List.mem_cons_of_mem _ hc)), List.map_map]
    rfl

theorem applyCalls_archives (freshId : List NotionPage → String) (rs : List NotionPage)
    (pages : List NotionPage) :
    applyCalls freshId pages (rs.map archiveCall) =
      pages.filter (fun page => decide (page.id ∉ rs.map (fun r => r.id))) := by
  induction rs generalizing pages with
  | nil => simp [applyCalls]
  | cons r rs ih =>
    have hstep : applyCalls freshId pages ((r :: rs).map archiveCall) =
        applyCalls freshId (pages.filter (fun page => page.id != r.id)) (rs.map archiveCall) :=
      rfl
    rw [hstep, ih, List.filter_filter]
    congr 1
    funext page
    by_cases h1 : page.id = r.id <;> simp [h1]

theorem applyCalls_creates (freshId : List NotionPage → String) (cs : List NotionCall)
    (hcs : ∀ c ∈ cs, IsCreate c) (pages : List NotionPage) :
    ∃ created, applyCalls freshId pages cs = pages ++ created ∧
      (∀ page ∈ created, (∃ qs, page.id = freshId qs) ∧
        ∃ args, NotionCall.pagesCreate args ∈ cs ∧ page.properties = args.properties) ∧
      (∀ args, NotionCall.pagesCreate args ∈ cs →
        ∃ page ∈ created, page.properties = args.properties) := by
  induction cs generalizing pages with
  | nil => exact ⟨[], by simp [applyCalls], by simp, by simp⟩
  | cons c cs ih =>
    obtain ⟨args, rfl⟩ := hcs c (List.mem_cons_self _ _)
    obtain ⟨created, h1, h2, h3⟩ := ih (fun c hc => hcs c (List.mem_cons_of_mem _ hc))
      (pages ++ [⟨freshId pages, args.properties⟩])
    refine ⟨⟨freshId pages, args.properties⟩ :: created, ?_, ?_, ?_⟩
    · have hstep : applyCalls freshId pages (NotionCall.pagesCreate args :: cs) =
          applyCalls freshId (pages ++ [⟨freshId pages, args.properties⟩]) cs := rfl
      rw [hstep, h1]
      simp
    · intro page hp
      rcases List.mem_cons.mp hp with rfl | hp
      · exact ⟨⟨pages, rfl⟩, args, List.mem_cons_self _ _, rfl⟩
      · obtain ⟨hq, a, ha, hpa⟩ := h2 page hp
        exact ⟨hq, a, List.mem_cons_of_mem _ ha, hpa⟩
    · intro a ha
      rcases List.mem_cons.mp ha with ha | ha
      · cases ha
        exact ⟨_, List.mem_cons_self _ _, rfl⟩
      · obtain ⟨page, hp, hpa⟩ := h3 a ha
        exact ⟨page, List.mem_cons_of_mem _ hp, hpa⟩

theorem mem_specCreates {env : Env} {taskLists : List TaskList} {records : List NotionPage}
    {c : NotionCall} :
    c ∈ specCreates env taskLists records ↔
      ∃ taskList ∈ taskLists, ∃ task ∈ taskList.tasks,
        isNew records task = true ∧ c = createCall env taskList task := by
  unfold specCreates
  simp only [List.mem_flatMap, List.mem_map, List.mem_filter]
  constructor
  · rintro ⟨tl, htl, t, ⟨ht, hn⟩, rfl⟩
    exact ⟨tl, htl, t, ht, hn, rfl⟩
  · rintro ⟨tl, htl, t, ht, hn, rfl⟩
    exact ⟨tl, htl, t, ⟨ht, hn⟩, rfl⟩

theorem mem_specUpdates {taskLists : List TaskList} {records : List NotionPage}
    {c : NotionCall} :
    c ∈ specUpdates taskLists records ↔
      ∃ taskList ∈ taskLists, ∃ task ∈ taskList.tasks, ∃ r,
        firstMatch records task = some r ∧ recordStatus r ≠ some (derivedStatus task) ∧
          c = statusCall r.id (derivedStatus task) := by
  unfold specUpdates
  simp only [List.mem_flatMap]
  constructor
  · rintro ⟨tl, htl, t, ht, hc⟩
    unfold specUpdateFor at hc
    split at hc
    · cases hc
    · rename_i r hfm
      split at hc
      · cases hc
      · rename_i hst
        exact ⟨tl, htl, t, ht, r, hfm, hst, by simpa using hc⟩
  · rintro ⟨tl, htl, t, ht, r, hfm, hst, rfl⟩
    refine ⟨tl, htl, t, ht, ?_⟩
    simp [specUpdateFor, hfm, hst]

theorem specCreates_isCreate (env : Env) (taskLists : List TaskList)
    (records : List NotionPage) : ∀ c ∈ specCreates env taskLists records, IsCreate c := by
  intro c hc
  obtain ⟨tl, _, t, _, _, rfl⟩ := mem_specCreates.mp hc
  exact ⟨_, rfl⟩

theorem specUpdates_isStatusUpdate (taskLists : List TaskList) (records : List NotionPage) :
    ∀ c ∈ specUpdates taskLists records, IsStatusUpdate c := by
  intro c hc
  obtain ⟨tl, _, t, _, r, _, _, rfl⟩ := mem_specUpdates.mp hc
  exact ⟨_, _, rfl⟩

theorem recordTitle_newProperties (pageId : String) (taskList : TaskList) (task : Task) :
    recordTitle ⟨pageId, newProperties taskList task⟩ = some task.title := by
  rw [newProperties_eq]
  simp [recordTitle, specRecord, List.lookup]

theorem recordStatus_newProperties (pageId : String) (taskList : TaskList) (task : Task) :
    recordStatus ⟨pageId, newProperties taskList task⟩ = some (derivedStatus task) := by
  rw [newProperties_eq]
  simp [recordStatus, specRecord, List.lookup, derivedStatus]

theorem recordTitle_congr {p q : NotionPage} (h : p.properties = q.properties) :
    recordTitle p = recordTitle q := by
  unfold recordTitle
  rw [h]

theorem recordStatus_congr {p q : NotionPage} (h : p.properties = q.properties) :
    recordStatus p = recordStatus q := by
  unfold recordStatus
  rw [h]

theorem isOrphan_congr (taskLists : List TaskList) {p q : NotionPage}
    (h : recordTitle p = recordTitle q) : isOrphan taskLists p = isOrphan taskLists q := by
  unfold isOrphan
  rw [h]

theorem find?_filter_keep {α : Type} (m keep : α → Bool) (l : List α) (r : α)
    (h : l.find? m = some r) (hk : keep r = true) : (l.filter keep).find? m = some r := by
  induction l with
  | nil => cases h
  | cons x xs ih =>
    rw [List.find?_cons] at h
    cases hm : m x with
    | true =>
      rw [hm] at h
      simp only [Option.some.injEq] at h
      subst h
      simp [List.filter_cons, hk, List.find?_cons, hm]
    | false =>
      rw [hm] at h
      cases hkx : keep x with
      | true => simp [List.filter_cons, hkx, List.find?_cons, hm, ih h]
      | false => simp [List.filter_cons, hkx, ih h]

theorem find?_map_of_invariant {α : Type} (m : α → Bool) (f : α → α) (l : List α)
    (h : ∀ x, m (f x) = m x) : (l.map f).find? m = (l.find? m).map f := by
  induction l with
  | nil => rfl
  | cons x xs ih =>
    simp only [List.map_cons, List.find?_cons, h x]
    cases m x <;> simp [ih]

/-- A collection on which a cycle has nothing to do. -/
theorem cycleCalls_nil_of_settled (env : Env) (taskLists : List TaskList)
    (pages : List NotionPage) (hwf : ∀ p ∈ pages, WellFormed p)
    (hfirst : ∀ taskList ∈ taskLists, ∀ task ∈ taskList.tasks, ∃ p,
      firstMatch pages task = some p ∧ recordStatus p = some (derivedStatus task))
    (hmatched : ∀ p ∈ pages, isOrphan taskLists p = false) :
    cycleCalls env taskLists pages = [] := by
  rw [cycleCalls_eq env taskLists pages hwf]
  have h1 : specCreates env taskLists pages = [] := by
    apply List.eq_nil_iff_forall_not_mem.mpr
    intro c hc
    obtain ⟨tl, htl, t, ht, hn, _⟩ := mem_specCreates.mp hc
    obtain ⟨p, hp, _⟩ := hfirst tl htl t ht
    rw [(firstMatch_none_iff pages t).mpr hn] at hp
    cases hp
  have h2 : specArchives taskLists pages = [] := by
    unfold specArchives
    rw [List.map_eq_nil_iff, List.filter_eq_nil_iff]
    intro p hp
    rw [hmatched p hp]
    simp
  have h3 : specUpdates taskLists pages = [] := by
    apply List.eq_nil_iff_forall_not_mem.mpr
    intro c hc
    obtain ⟨tl, htl, t, ht, r, hfm, hst, _⟩ := mem_specUpdates.mp hc
    obtain ⟨p, hp, hps⟩ := hfirst tl htl t ht
    rw [hfm] at hp
    cases hp
    exact hst hps
  rw [h1, h2, h3]
  rfl

/-- The collection after one cycle whose writes all succeeded is settled. -/
theorem sink_after_cycle_settled (env : Env) (taskLists : List TaskList)
    (records : List NotionPage) (freshId : List NotionPage → String)
    (hwf : ∀ r ∈ records, WellFormed r)
    (hids : (records.map (fun r => r.id)).Nodup)
    (hfresh : ∀ pages, freshId pages ∉ records.map (fun r => r.id))
    (hagree : ∀ taskList ∈ taskLists, ∀ task ∈ taskList.tasks,
      ∀ taskList2 ∈ taskLists, ∀ task2 ∈ taskList2.tasks,
        task.title = task2.title → derivedStatus task = derivedStatus task2) :
    (∀ p ∈ applyCalls freshId records (cycleCalls env taskLists records), WellFormed p) ∧
    (∀ taskList ∈ taskLists, ∀ task ∈ taskList.tasks, ∃ p,
      firstMatch (applyCalls freshId records (cycleCalls env taskLists records)) task = some p ∧
        recordStatus p = some (derivedStatus task)) ∧
    (∀ p ∈ applyCalls freshId records (cycleCalls env taskLists records),
      isOrphan taskLists p = false) := by
  have hUs := specUpdates_isStatusUpdate taskLists records
  obtain ⟨created, hS1, hcr1, hcr2⟩ := applyCalls_creates freshId
    (specCreates env taskLists records) (specCreates_isCreate env taskLists records) records
  -- the collection after the cycle
  have hS3 : applyCalls freshId records (cycleCalls env taskLists records) =
      ((records ++ created).filter (fun page =>
        decide (page.id ∉ (records.filter (isOrphan taskLists)).map (fun r => r.id)))).map
        (updatesOn (specUpdates taskLists records)) := by
    rw [cycleCalls_eq env taskLists records hwf, applyCalls_append, applyCalls_append, hS1]
    unfold specArchives
    rw [applyCalls_archives, applyCalls_updates _ _ hUs]
  rw [hS3]
  generalize hK : (fun page : NotionPage =>
    decide (page.id ∉ (records.filter (isOrphan taskLists)).map (fun r => r.id))) = keep
  generalize hF : updatesOn (specUpdates taskLists records) = F at *
  have hFtitle : ∀ p, recordTitle (F p) = recordTitle p := by
    intro p; rw [← hF]; exact updatesOn_title _ hUs p
  -- created pages
  have hcreated : ∀ c ∈ created, c.id ∉ records.map (fun r => r.id) ∧
      ∃ taskList ∈ taskLists, ∃ task ∈ taskList.tasks, isNew records task = true ∧
        c.properties = newProperties taskList task := by
    intro c hc
    obtain ⟨⟨qs, hq⟩, args, hargs, hprops⟩ := hcr1 c hc
    refine ⟨by rw [hq]; exact hfresh qs, ?_⟩
    obtain ⟨tl, htl, t, ht, hn, heq⟩ := mem_specCreates.mp hargs
    refine ⟨tl, htl, t, ht, hn, ?_⟩
    simp only [createCall, NotionCall.pagesCreate.injEq] at heq
    rw [hprops, heq]
  have hupdIds : ∀ pageId status, statusCall pageId status ∈ specUpdates taskLists records →
      pageId ∈ records.map (fun r => r.id) := by
    intro pageId status hm
    obtain ⟨tl, _, t, _, r, hfm, _, heq⟩ := mem_specUpdates.mp hm
    simp only [statusCall, NotionCall.pagesUpdate.injEq, UpdateArgs.mk.injEq] at heq
    rw [heq.1]
    exact List.mem_map.mpr ⟨r, (firstMatch_some hfm).1, rfl⟩
  have hkeepCreated : ∀ c ∈ created, keep c = true := by
    intro c hc
    rw [← hK]
    simp only [decide_eq_true_eq]
    intro hmem
    obtain ⟨r, hr, hrid⟩ := List.mem_map.mp hmem
    exact (hcreated c hc).1 (List.mem_map.mpr ⟨r, (List.mem_filter.mp hr).1, hrid⟩)
  have hFcreated : ∀ c ∈ created, F c = c := by
    intro c hc
    rw [← hF]
    apply updatesOn_untouched _ hUs
    intro pageId status hm heq
    exact (hcreated c hc).1 (heq ▸ hupdIds pageId status hm)
  have hkeepOrphan : ∀ r ∈ records, keep r = true → isOrphan taskLists r = false := by
    intro r hr hk
    rw [← hK] at hk
    simp only [decide_eq_true_eq] at hk
    cases ho : isOrphan taskLists r with
    | false => rfl
    | true => exact absurd (List.mem_map.mpr ⟨r, List.mem_filter.mpr ⟨hr, ho⟩, rfl⟩) hk
  have hkeepMatched : ∀ r ∈ records, isOrphan taskLists r = false → keep r = true := by
    intro r hr ho
    rw [← hK]
    simp only [decide_eq_true_eq]
    intro hmem
    obtain ⟨r2, hr2, hrid⟩ := List.mem_map.mp hmem
    obtain ⟨hr2mem, hr2o⟩ := List.mem_filter.mp hr2
    have : r2 = r := List.inj_on_of_nodup_map hids hr2mem hr hrid
    rw [this, ho] at hr2o
    cases hr2o
  have hcreatedTitle : ∀ c ∈ created, ∃ taskList ∈ taskLists, ∃ task ∈ taskList.tasks,
      recordTitle c = some task.title ∧ recordStatus c = some (derivedStatus task) := by
    intro c hc
    obtain ⟨_, tl, htl, t, ht, _, hprops⟩ := hcreated c hc
    refine ⟨tl, htl, t, ht, ?_, ?_⟩
    · rw [recordTitle_congr (q := ⟨c.id, newProperties tl t⟩) hprops, recordTitle_newProperties]
    · rw [recordStatus_congr (q := ⟨c.id, newProperties tl t⟩) hprops, recordStatus_newProperties]
  refine ⟨?_, ?_, ?_⟩
  · -- well-formedness
    intro p hp
    obtain ⟨q, hq, rfl⟩ := List.mem_map.mp hp
    obtain ⟨hq, _⟩ := List.mem_filter.mp hq
    have hqwf : WellFormed q := by
      rcases List.mem_append.mp hq with hq | hq
      · exact hwf q hq
      · obtain ⟨tl, _, t, _, h1, h2⟩ := hcreatedTitle q hq
        exact ⟨by unfold WellFormedTitle; rw [h1]; simp,
          by unfold WellFormedStatus; rw [h2]; simp⟩
    refine ⟨?_, ?_⟩
    · unfold WellFormedTitle
      rw [hFtitle]
      exact hqwf.1
    · rw [← hF]
      exact updatesOn_wellFormedStatus _ hUs q hqwf.2
  · -- first matches carry the derived status
    intro tl htl t ht
    have hm : ∀ x, (fun r => recordTitle r == some t.title) (F x) =
        (fun r => recordTitle r == some t.title) x := by
      intro x
      simp only [hFtitle]
    unfold firstMatch
    rw [find?_map_of_invariant _ F _ hm, List.filter_append, List.find?_append]
    cases hfm : firstMatch records t with
    | some r0 =>
      obtain ⟨hr0, hr0t⟩ := firstMatch_some hfm
      have hr0o : isOrphan taskLists r0 = false := by
        cases ho : isOrphan taskLists r0 with
        | false => rfl
        | true => exact absurd hr0t ((isOrphan_iff taskLists r0).mp ho tl htl t ht)
      have hfind := find?_filter_keep (fun r => recordTitle r == some t.title) keep records r0
        hfm (hkeepMatched r0 hr0 hr0o)
      rw [hfind]
      refine ⟨F r0, rfl, ?_⟩
      rw [← hF]
      apply updatesOn_status _ hUs
      · intro status hmem
        obtain ⟨tl2, htl2, t2, ht2, r2, hfm2, _, heq⟩ := mem_specUpdates.mp hmem
        simp only [statusCall, NotionCall.pagesUpdate.injEq, UpdateArgs.mk.injEq,
          List.cons.injEq, Prod.mk.injEq, PropertyValue.select.injEq, Option.some.injEq,
          SelectOption.mk.injEq, and_true, true_and] at heq
        obtain ⟨hr2, hr2t⟩ := firstMatch_some hfm2
        have : r2 = r0 := List.inj_on_of_nodup_map hids hr2 hr0 heq.1.symm
        subst this
        have htt : t.title = t2.title := by
          rw [hr0t] at hr2t
          exact Option.some.inj hr2t
        rw [heq.2]
        exact (hagree tl htl t ht tl2 htl2 t2 ht2 htt).symm
      · by_cases hst : recordStatus r0 = some (derivedStatus t)
        · exact Or.inl hst
        · exact Or.inr ⟨derivedStatus t, mem_specUpdates.mpr ⟨tl, htl, t, ht, r0, hfm, hst, rfl⟩⟩
    | none =>
      have hn : isNew records t = true := (firstMatch_none_iff records t).mp hfm
      have hnone : (records.filter keep).find? (fun r => recordTitle r == some t.title) = none := by
        rw [List.find?_eq_none]
        intro x hx
        have hx2 := (List.mem_filter.mp hx).1
        have := (isNew_iff records t).mp hn x hx2
        simpa using this
      rw [hnone, List.filter_eq_self.mpr hkeepCreated]
      obtain ⟨c, hc, hcp⟩ := hcr2 ⟨env.notionDatabaseId, newProperties tl t⟩
        (mem_specCreates.mpr ⟨tl, htl, t, ht, hn, rfl⟩)
      have hct : recordTitle c = some t.title := by
        rw [recordTitle_congr (q := ⟨c.id, newProperties tl t⟩) hcp, recordTitle_newProperties]
      cases hfc : created.find? (fun r => recordTitle r == some t.title) with
      | none =>
        rw [List.find?_eq_none] at hfc
        exact absurd (by simpa using hct) (hfc c hc)
      | some c0 =>
        have hc0 := List.mem_of_find?_eq_some hfc
        have hc0t : recordTitle c0 = some t.title := by simpa using List.find?_some hfc
        refine ⟨F c0, rfl, ?_⟩
        rw [hFcreated c0 hc0]
        obtain ⟨tl2, htl2, t2, ht2, h1, h2⟩ := hcreatedTitle c0 hc0
        rw [h2]
        have htt : t2.title = t.title := by
          rw [h1] at hc0t
          exact Option.some.inj hc0t
        rw [hagree tl2 htl2 t2 ht2 tl htl t ht htt]
  · -- no orphan is left
    intro p hp
    obtain ⟨q, hq, rfl⟩ := List.mem_map.mp hp
    obtain ⟨hq, hkq⟩ := List.mem_filter.mp hq
    rw [isOrphan_congr taskLists (hFtitle q)]
    rcases List.mem_append.mp hq with hq | hq
    · exact hkeepOrphan q hq hkq
    · obtain ⟨tl, htl, t, ht, h1, _⟩ := hcreatedTitle q hq
      cases ho : isOrphan taskLists q with
      | false => rfl
      | true => exact absurd h1 ((isOrphan_iff taskLists q).mp ho tl htl t ht)

/-! ## The claims -/

/-- C1: on sink records with well-formed titles, `isNewTask` returns true
exactly for the tasks whose title equals no record title, and the create
requests issued by `saveNewTasksToNotion` are, in task-list order then task
order and with multiplicity, one per such task; with no records, one per
task. -/
theorem saveNewTasksToNotion_creates_new_tasks (env : Env) (taskLists : List TaskList)
    (records : List NotionPage) (hwf : ∀ r ∈ records, WellFormedTitle r) :
    (∀ task, isNewTask task records = .ok (isNew records task)) ∧
    (∀ task, isNewTask task records = .ok true ↔
      ∀ r ∈ records, recordTitle r ≠ some task.title) ∧
    (∀ w, (saveNewTasksToNotion env taskLists records w).1 = .ok () ∧
      emitted (saveNewTasksToNotion env taskLists records) w =
        taskLists.flatMap (fun taskList =>
          (taskList.tasks.filter (isNew records)).map (fun task =>
            NotionCall.pagesCreate ⟨env.notionDatabaseId, newProperties taskList task⟩))) ∧
    (records = [] → ∀ w, emitted (saveNewTasksToNotion env taskLists records) w =
        taskLists.flatMap (fun taskList =>
          taskList.tasks.map (fun task =>
            NotionCall.pagesCreate ⟨env.notionDatabaseId, newProperties taskList task⟩))) := by
  refine ⟨fun task => isNewTask_ok task records hwf, fun task => ?_, fun w => ?_, ?_⟩
  · rw [isNewTask_ok task records hwf, ← isNew_iff]
    simp
  · obtain ⟨h1, h2⟩ := saveNewTasksToNotion_run env taskLists records hwf w
    exact ⟨h1, emitted_eq h2⟩
  · intro hnil w
    subst hnil
    obtain ⟨_, h2⟩ := saveNewTasksToNotion_run env taskLists [] hwf w
    rw [emitted_eq h2, specCreates_nil]
    rfl

/-- C1, at tasks A (open) and B (completed) with no sink records: exactly two
creates, A then B. -/
theorem saveNewTasksToNotion_creates_new_tasks_witness :
    (∀ r ∈ ([] : List NotionPage), WellFormedTitle r) ∧
    emitted (saveNewTasksToNotion exampleEnv exampleTaskLists []) World.empty =
      [ .pagesCreate ⟨"db", [("Name", .title [⟨some ⟨"A"⟩⟩]),
          ("TaskList", .rich_text [⟨some ⟨"My Tasks"⟩⟩]),
          ("Status", .select (some ⟨"Not Started"⟩))]⟩,
        .pagesCreate ⟨"db", [("Name", .title [⟨some ⟨"B"⟩⟩]),
          ("TaskList", .rich_text [⟨some ⟨"My Tasks"⟩⟩]),
          ("Status", .select (some ⟨"Completed"⟩)),
          ("Due Date", .date (some ⟨"2024-05-01T00:00:00.000Z"⟩))]⟩ ] :=
  ⟨by simp,
   (saveNewTasksToNotion_creates_new_tasks exampleEnv exampleTaskLists [] (by simp)).2.2.2
     rfl World.empty⟩

/-- C2: on sink records with well-formed titles, the archive requests issued
by `deleteTasksFromNotion` are, in record order, one per record whose title
equals the title of no task of any list; each targets the record id and
carries `archived = true` and nothing else; and no call of a cycle is a hard
delete. -/
theorem deleteTasksFromNotion_archives_orphans (env : Env) (taskLists : List TaskList)
    (records : List NotionPage) (hwf : ∀ r ∈ records, WellFormedTitle r) :
    (∀ r, isOrphan taskLists r = true ↔
      ∀ taskList ∈ taskLists, ∀ task ∈ taskList.tasks, recordTitle r ≠ some task.title) ∧
    (∀ w, (deleteTasksFromNotion env taskLists records w).1 = .ok () ∧
      emitted (deleteTasksFromNotion env taskLists records) w =
        (records.filter (isOrphan taskLists)).map (fun r =>
          NotionCall.pagesUpdate ⟨r.id, some true, none⟩)) ∧
    (∀ google query w, ∀ c ∈ emitted (fetchCompareAndSaveTasks env google query) w,
      ¬ IsHardDelete c) := by
  refine ⟨fun r => isOrphan_iff taskLists r, fun w => ?_, fun google query w c hc => ?_⟩
  · obtain ⟨h1, h2⟩ := deleteTasksFromNotion_run env taskLists records hwf w
    exact ⟨h1, emitted_eq h2⟩
  · obtain ⟨extra, h1, h2⟩ := fetchCompareAndSaveTasks_emits env google query w
    rw [emitted_eq h1] at hc
    rintro ⟨blockId, rfl⟩
    rcases h2 _ hc with ⟨args, h⟩ | ⟨pageId, h⟩ | ⟨pageId, status, h⟩
    · exact NotionCall.noConfusion h
    · exact NotionCall.noConfusion h
    · exact NotionCall.noConfusion h

/-- C2, at sink record C with no matching task: one archive call on the id of
C. -/
theorem deleteTasksFromNotion_archives_orphans_witness :
    (∀ r ∈ [examplePage "p3" "C" "Not Started"], WellFormedTitle r) ∧
    emitted (deleteTasksFromNotion exampleEnv exampleTaskLists
      [examplePage "p3" "C" "Not Started"]) World.empty =
      [.pagesUpdate ⟨"p3", some true, none⟩] :=
  ⟨by decide,
   ((deleteTasksFromNotion_archives_orphans exampleEnv exampleTaskLists
      [examplePage "p3" "C" "Not Started"] (by decide)).2.1 World.empty).2⟩


/-- C3: on well-formed sink records, `updateTaskStatusInNotion` issues an
update for a task exactly when some record has the task title and the derived
status differs from the stored status of the first such record; the request
targets that record id and carries only the `Status` field set to the derived
status; and a cycle issues the creates, then the archives, then these
updates. -/
theorem updateTaskStatusInNotion_updates_changed (env : Env) (taskLists : List TaskList)
    (records : List NotionPage) (hwf : ∀ r ∈ records, WellFormed r) :
    (∀ task, ((firstMatch records task).isSome = true ↔
        ∃ r ∈ records, recordTitle r = some task.title) ∧
      ∀ w, emitted (updateTask env records task) w =
        match firstMatch records task with
        | none => []
        | some r =>
          if recordStatus r = some (if task.status = "completed" then "Completed" else "Not Started")
          then []
          else [NotionCall.pagesUpdate ⟨r.id, none, some [("Status", .select (some
            ⟨if task.status = "completed" then "Completed" else "Not Started"⟩))]⟩]) ∧
    (∀ w, (updateTaskStatusInNotion env taskLists records w).1 = .ok () ∧
      emitted (updateTaskStatusInNotion env taskLists records) w =
        taskLists.flatMap (fun taskList =>
          taskList.tasks.flatMap (fun task => emitted (updateTask env records task) w))) ∧
    cycleCalls env taskLists records =
      specCreates env taskLists records ++ specArchives taskLists records ++
        emitted (updateTaskStatusInNotion env taskLists records) World.empty := by
  have hbody : ∀ task w, emitted (updateTask env records task) w = specUpdateFor records task :=
    fun task w => emitted_eq (updateTask_run env records task hwf w).2
  have hphase : ∀ w, emitted (updateTaskStatusInNotion env taskLists records) w =
      specUpdates taskLists records :=
    fun w => emitted_eq (updateTaskStatusInNotion_run env taskLists records hwf w).2
  refine ⟨fun task => ⟨firstMatch_isSome_iff records task, fun w => ?_⟩, fun w => ⟨?_, ?_⟩, ?_⟩
  · rw [hbody]
    rfl
  · exact (updateTaskStatusInNotion_run env taskLists records hwf w).1
  · rw [hphase]
    simp only [hbody]
    rfl
  · rw [hphase, cycleCalls_eq env taskLists records hwf]

/-- C3, at sink record A (Not Started) and task A (completed): the cycle
issues exactly one update, to Completed, and no create or archive. -/
theorem updateTaskStatusInNotion_updates_changed_witness :
    (∀ r ∈ [examplePage "p1" "A" "Not Started"], WellFormed r) ∧
    cycleCalls exampleEnv [⟨"l1", "My Tasks", [⟨"t1", "A", "completed", none⟩]⟩]
        [examplePage "p1" "A" "Not Started"] =
      [.pagesUpdate ⟨"p1", none, some [("Status", .select (some ⟨"Completed"⟩))]⟩] :=
  ⟨by decide,
   (updateTaskStatusInNotion_updates_changed exampleEnv
      [⟨"l1", "My Tasks", [⟨"t1", "A", "completed", none⟩]⟩]
      [examplePage "p1" "A" "Not Started"] (by decide)).2.2⟩

/-- C4: on sink records with well-formed titles, the create request issued for
a new task of a task list carries exactly: `Name` = the task title,
`TaskList` = the title of the containing list, `Status` = Completed when the
task status is completed and Not Started otherwise, and `Due Date` with
`start` = the due value exactly when the task carries a due timestamp; the
request is part of the calls of `saveNewTasksToNotion`. -/
theorem create_request_fields (env : Env) (taskLists : List TaskList)
    (records : List NotionPage) (hwf : ∀ r ∈ records, WellFormedTitle r)
    (taskList : TaskList) (htl : taskList ∈ taskLists) (task : Task)
    (ht : task ∈ taskList.tasks) (hnew : isNewTask task records = .ok true) :
    (∀ w, emitted (saveTask env records taskList task) w =
      [.pagesCreate ⟨env.notionDatabaseId,
        [ ("Name", .title [⟨some ⟨task.title⟩⟩]),
          ("TaskList", .rich_text [⟨some ⟨taskList.title⟩⟩]),
          ("Status", .select (some
            ⟨if task.status = "completed" then "Completed" else "Not Started"⟩)) ]
        ++ (match dueTimestamp task with
            | some due => [("Due Date", .date (some ⟨due⟩))]
            | none => [])⟩]) ∧
    (∀ w, NotionCall.pagesCreate ⟨env.notionDatabaseId, specRecord taskList task⟩ ∈
      emitted (saveNewTasksToNotion env taskLists records) w) := by
  have hn : isNew records task = true := by
    rw [isNewTask_ok task records hwf] at hnew
    simpa using hnew
  refine ⟨fun w => ?_, fun w => ?_⟩
  · rw [emitted_eq (saveTask_run env records taskList task hwf w).2, hn]
    simp only [if_true, createCall, newProperties_eq]
    rfl
  · rw [emitted_eq (saveNewTasksToNotion_run env taskLists records hwf w).2]
    unfold specCreates
    refine List.mem_flatMap.mpr ⟨taskList, htl, List.mem_map.mpr ⟨task, ?_, ?_⟩⟩
    · exact List.mem_filter.mpr ⟨ht, hn⟩
    · simp only [createCall, newProperties_eq]

/-- C4, at task B (completed, with a due timestamp) of list My Tasks, no sink
records. -/
theorem create_request_fields_witness :
    (∀ r ∈ ([] : List NotionPage), WellFormedTitle r) ∧
    emitted (saveTask exampleEnv []
      ⟨"l1", "My Tasks", [⟨"t2", "B", "completed", some "2024-05-01T00:00:00.000Z"⟩]⟩
      ⟨"t2", "B", "completed", some "2024-05-01T00:00:00.000Z"⟩) World.empty =
      [.pagesCreate ⟨"db", [("Name", .title [⟨some ⟨"B"⟩⟩]),
          ("TaskList", .rich_text [⟨some ⟨"My Tasks"⟩⟩]),
          ("Status", .select (some ⟨"Completed"⟩)),
          ("Due Date", .date (some ⟨"2024-05-01T00:00:00.000Z"⟩))]⟩] :=
  ⟨by simp,
   (create_request_fields exampleEnv
      [⟨"l1", "My Tasks", [⟨"t2", "B", "completed", some "2024-05-01T00:00:00.000Z"⟩]⟩] []
      (by simp) ⟨"l1", "My Tasks", [⟨"t2", "B", "completed", some "2024-05-01T00:00:00.000Z"⟩]⟩
      (by simp) ⟨"t2", "B", "completed", some "2024-05-01T00:00:00.000Z"⟩ (by simp) rfl).1
      World.empty⟩


/-- C7: the calls of one run of `fetchCompareAndSaveTasks` are the creates of
`saveNewTasksToNotion`, then archives, then status updates; an archive or an
update is only issued after `saveNewTasksToNotion` has returned, and an update
only after `deleteTasksFromNotion` has returned. -/
theorem phases_in_order (env : Env) (taskLists : List TaskList) (records : List NotionPage) :
    ∃ cs as us, cycleCalls env taskLists records = cs ++ as ++ us ∧
      (∀ c ∈ cs, IsCreate c) ∧ (∀ c ∈ as, IsArchive c) ∧ (∀ c ∈ us, IsStatusUpdate c) ∧
      cs = emitted (saveNewTasksToNotion env taskLists records) World.empty ∧
      (as ++ us ≠ [] →
        (saveNewTasksToNotion env taskLists records World.empty).1 = .ok () ∧
        as = emitted (deleteTasksFromNotion env taskLists records)
          (saveNewTasksToNotion env taskLists records World.empty).2) ∧
      (us ≠ [] →
        (deleteTasksFromNotion env taskLists records
          (saveNewTasksToNotion env taskLists records World.empty).2).1 = .ok () ∧
        us = emitted (updateTaskStatusInNotion env taskLists records)
          (deleteTasksFromNotion env taskLists records
            (saveNewTasksToNotion env taskLists records World.empty).2).2) := by
  obtain ⟨e1, h1, p1⟩ := saveNewTasksToNotion_emits env taskLists records World.empty
  have hcs := emitted_eq h1
  unfold cycleCalls
  rw [cycle_unfold_ok]
  unfold Js.tryCatch Js.bind
  rcases hs : saveNewTasksToNotion env taskLists records World.empty with ⟨res1, w1⟩
  rw [hs] at h1
  simp only [World.empty, List.nil_append] at h1
  cases res1 with
  | error e =>
    refine ⟨e1, [], [], ?_, p1, by simp, by simp, hcs.symm, by simp, by simp⟩
    simp [consoleError, h1]
  | ok u1 =>
    obtain ⟨e2, h2, p2⟩ := deleteTasksFromNotion_emits env taskLists records w1
    have has := emitted_eq h2
    simp only
    rcases hd : deleteTasksFromNotion env taskLists records w1 with ⟨res2, w2⟩
    rw [hd] at h2
    simp only at h2
    cases res2 with
    | error e =>
      refine ⟨e1, e2, [], ?_, p1, p2, by simp, hcs.symm, fun _ => ⟨trivial, has.symm⟩, by simp⟩
      simp [consoleError, h2, h1]
    | ok u2 =>
      obtain ⟨e3, h3, p3⟩ := updateTaskStatusInNotion_emits env taskLists records w2
      have hus := emitted_eq h3
      simp only
      rcases hu : updateTaskStatusInNotion env taskLists records w2 with ⟨res3, w3⟩
      rw [hu] at h3
      simp only at h3
      refine ⟨e1, e2, e3, ?_, p1, p2, p3, hcs.symm, fun _ => ⟨trivial, has.symm⟩,
        fun _ => ⟨trivial, hus.symm⟩⟩
      cases res3 <;> simp [consoleError, h3, h2, h1]

/-- C8: on well-formed inputs, whatever write calls reject, the calls
attempted by a cycle are those attempted when every call succeeds: each
create, archive and update of the classification exactly once, in order, and
the cycle runs to its end. -/
theorem failure_isolation (env : Env) (taskLists : List TaskList) (records : List NotionPage)
    (hwf : ∀ r ∈ records, WellFormed r) :
    cycleCalls env taskLists records =
      cycleCalls ⟨env.notionDatabaseId, fun _ => false⟩ taskLists records ∧
    cycleCalls env taskLists records =
      specCreates env taskLists records ++ specArchives taskLists records ++
        specUpdates taskLists records ∧
    (fetchCompareAndSaveTasks env (.ok taskLists) (.ok records) World.empty).1 = .ok () := by
  refine ⟨?_, cycleCalls_eq env taskLists records hwf, ?_⟩
  · rw [cycleCalls_eq env taskLists records hwf, cycleCalls_eq _ taskLists records hwf]
    rfl
  · obtain ⟨h1, _⟩ := phases_run env taskLists records hwf World.empty
    rw [cycle_unfold_ok, tryCatch_of_ok h1, h1]

/-- C8, with every write call rejecting: the same three calls as when every
call succeeds. -/
theorem failure_isolation_witness :
    (∀ r ∈ [examplePage "p1" "B" "Not Started", examplePage "p3" "C" "Completed"],
      WellFormed r) ∧
    cycleCalls failingEnv exampleTaskLists
        [examplePage "p1" "B" "Not Started", examplePage "p3" "C" "Completed"] =
      cycleCalls exampleEnv exampleTaskLists
        [examplePage "p1" "B" "Not Started", examplePage "p3" "C" "Completed"] ∧
    (cycleCalls failingEnv exampleTaskLists
        [examplePage "p1" "B" "Not Started", examplePage "p3" "C" "Completed"]).length = 3 :=
  ⟨by decide,
   (failure_isolation failingEnv exampleTaskLists
      [examplePage "p1" "B" "Not Started", examplePage "p3" "C" "Completed"] (by decide)).1,
   by decide⟩

/-- C9: on well-formed sink records the matching expressions of a cycle never
throw: `isNewTask`, the orphan test and the find/status comparison each return
a value, and the three phases return normally. -/
theorem matcher_total (env : Env) (taskLists : List TaskList) (records : List NotionPage)
    (hwf : ∀ r ∈ records, WellFormed r) :
    (∀ task, isNewTask task records = .ok (isNew records task)) ∧
    (∀ r ∈ records, presentInGoogle taskLists r = .ok (!isOrphan taskLists r)) ∧
    (∀ task, findNotionTask task records = .ok (firstMatch records task) ∧
      ∃ b, statusDiffers task (firstMatch records task) = .ok b) ∧
    (∀ w, (saveNewTasksToNotion env taskLists records w).1 = .ok () ∧
      (deleteTasksFromNotion env taskLists records w).1 = .ok () ∧
      (updateTaskStatusInNotion env taskLists records w).1 = .ok ()) := by
  have hwt : ∀ r ∈ records, WellFormedTitle r := fun r hr => (hwf r hr).1
  refine ⟨fun task => isNewTask_ok task records hwt,
    fun r hr => presentInGoogle_ok taskLists r (hwt r hr),
    fun task => ⟨findNotionTask_ok task records hwt, ?_⟩,
    fun w => ⟨(saveNewTasksToNotion_run env taskLists records hwt w).1,
      (deleteTasksFromNotion_run env taskLists records hwt w).1,
      (updateTaskStatusInNotion_run env taskLists records hwf w).1⟩⟩
  cases hfm : firstMatch records task with
  | none => exact ⟨false, rfl⟩
  | some r =>
    obtain ⟨st, hst⟩ := Option.ne_none_iff_exists'.mp (hwf r (firstMatch_some hfm).1).2
    exact ⟨decide (st ≠ derivedStatus task), by simp [statusDiffers, statusName_of_status hst]⟩

/-- C9, at one well-formed record: `isNewTask` returns a value. -/
theorem matcher_total_witness :
    (∀ r ∈ [examplePage "p1" "A" "Not Started"], WellFormed r) ∧
    isNewTask ⟨"t1", "A", "completed", none⟩ [examplePage "p1" "A" "Not Started"] = .ok false :=
  ⟨by decide,
   (matcher_total exampleEnv exampleTaskLists [examplePage "p1" "A" "Not Started"]
      (by decide)).1 ⟨"t1", "A", "completed", none⟩⟩

/-- C10: when the sink query fails, `fetchTasksFromNotion` returns the empty
collection, and the cycle issues one create for every task of every list and
no archive and no status update. -/
theorem failed_query_creates_every_task (env : Env) (taskLists : List TaskList) (e : JsError)
    (w : World) :
    (fetchTasksFromNotion (.error e) w).1 = .ok [] ∧
    emitted (fetchCompareAndSaveTasks env (.ok taskLists) (.error e)) w =
      taskLists.flatMap (fun taskList =>
        taskList.tasks.map (fun task =>
          NotionCall.pagesCreate ⟨env.notionDatabaseId, newProperties taskList task⟩)) ∧
    (∀ c ∈ emitted (fetchCompareAndSaveTasks env (.ok taskLists) (.error e)) w,
      ¬ IsArchive c ∧ ¬ IsStatusUpdate c) := by
  have hcalls : emitted (fetchCompareAndSaveTasks env (.ok taskLists) (.error e)) w =
      taskLists.flatMap (fun taskList => taskList.tasks.map (createCall env taskList)) := by
    obtain ⟨h1, h2⟩ := phases_run env taskLists [] (by simp)
      { w with console := w.console ++ [.error "Error fetching tasks from Notion:" e] }
    unfold emitted
    rw [cycle_unfold_error, tryCatch_of_ok h1, h2, specArchives_nil, specUpdates_nil,
      specCreates_nil]
    simp
  refine ⟨rfl, hcalls, fun c hc => ?_⟩
  rw [hcalls] at hc
  obtain ⟨taskList, _, hc⟩ := List.mem_flatMap.mp hc
  obtain ⟨task, _, rfl⟩ := List.mem_map.mp hc
  constructor
  · rintro ⟨pageId, h⟩
    exact NotionCall.noConfusion h
  · rintro ⟨pageId, status, h⟩
    exact NotionCall.noConfusion h


/-- C6: on well-formed sink records, each task is exactly one of New (a create
is issued for it and no update), Status-Changed (an update and no create) or
Unchanged (neither); each sink record is exactly one of Orphaned (an archive
is issued for it and no task has its title) or Matched (no archive and some
task has its title); an archived record is the update target of no task of
the snapshot, and with pairwise distinct record ids no page id receives both
an archive and a status update in a cycle. -/
theorem classification_complete (env : Env) (taskLists : List TaskList)
    (records : List NotionPage) (hwf : ∀ r ∈ records, WellFormed r) :
    (∀ taskList task w w',
      (emitted (saveTask env records taskList task) w = [createCall env taskList task] ∧
        emitted (updateTask env records task) w' = []) ∨
      (emitted (saveTask env records taskList task) w = [] ∧
        ∃ r, firstMatch records task = some r ∧
          emitted (updateTask env records task) w' =
            [statusCall r.id (derivedStatus task)]) ∨
      (emitted (saveTask env records taskList task) w = [] ∧
        emitted (updateTask env records task) w' = [])) ∧
    (∀ r ∈ records, ∀ w,
      (emitted (deleteTask env taskLists r) w = [archiveCall r] ∧
        ¬ ∃ taskList ∈ taskLists, ∃ task ∈ taskList.tasks, recordTitle r = some task.title) ∨
      (emitted (deleteTask env taskLists r) w = [] ∧
        ∃ taskList ∈ taskLists, ∃ task ∈ taskList.tasks, recordTitle r = some task.title)) ∧
    (∀ r ∈ records, ∀ w, emitted (deleteTask env taskLists r) w ≠ [] →
      ∀ taskList ∈ taskLists, ∀ task ∈ taskList.tasks, firstMatch records task ≠ some r) ∧
    ((records.map (fun r => r.id)).Nodup →
      ∀ pageId, NotionCall.pagesUpdate ⟨pageId, some true, none⟩ ∈ cycleCalls env taskLists records →
        ∀ status, statusCall pageId status ∉ cycleCalls env taskLists records) := by
  have hwt : ∀ r ∈ records, WellFormedTitle r := fun r hr => (hwf r hr).1
  have hsave : ∀ taskList task w, emitted (saveTask env records taskList task) w =
      if isNew records task then [createCall env taskList task] else [] :=
    fun taskList task w => emitted_eq (saveTask_run env records taskList task hwt w).2
  have hupd : ∀ task w, emitted (updateTask env records task) w = specUpdateFor records task :=
    fun task w => emitted_eq (updateTask_run env records task hwf w).2
  have hdel : ∀ r ∈ records, ∀ w, emitted (deleteTask env taskLists r) w =
      if isOrphan taskLists r then [archiveCall r] else [] :=
    fun r hr w => emitted_eq (deleteTask_run env taskLists r (hwt r hr) w).2
  have horph : ∀ r, isOrphan taskLists r = true →
      ∀ taskList ∈ taskLists, ∀ task ∈ taskList.tasks, firstMatch records task ≠ some r := by
    intro r ho taskList htl task ht hfm
    exact (isOrphan_iff taskLists r).mp ho taskList htl task ht (firstMatch_some hfm).2
  refine ⟨fun taskList task w w' => ?_, fun r hr w => ?_, fun r hr w hne => ?_, ?_⟩
  · rw [hsave, hupd]
    unfold specUpdateFor
    cases hfm : firstMatch records task with
    | none =>
      have hn : isNew records task = true := (firstMatch_none_iff records task).mp hfm
      simp [hn]
    | some r =>
      have hn : isNew records task = false := by
        cases h : isNew records task with
        | false => rfl
        | true => rw [(firstMatch_none_iff records task).mpr h] at hfm; cases hfm
      by_cases hst : recordStatus r = some (derivedStatus task)
      · simp [hn, hst]
      · simp [hn, hst]
  · rw [hdel r hr]
    cases ho : isOrphan taskLists r with
    | true =>
      left
      refine ⟨by simp, ?_⟩
      rintro ⟨taskList, htl, task, ht, heq⟩
      exact (isOrphan_iff taskLists r).mp ho taskList htl task ht heq
    | false =>
      right
      refine ⟨by simp, ?_⟩
      by_contra hno
      have : isOrphan taskLists r = true := by
        rw [isOrphan_iff]
        intro taskList htl task ht heq
        exact hno ⟨taskList, htl, task, ht, heq⟩
      rw [ho] at this
      cases this
  · rw [hdel r hr] at hne
    cases ho : isOrphan taskLists r with
    | true => exact horph r ho
    | false => rw [ho] at hne; simp at hne
  · intro hnd pageId harch status hstat
    rw [cycleCalls_eq env taskLists records hwf] at harch hstat
    have harch2 : NotionCall.pagesUpdate ⟨pageId, some true, none⟩ ∈
        specArchives taskLists records := by
      rcases List.mem_append.mp harch with h | h
      · rcases List.mem_append.mp h with h | h
        · obtain ⟨args, hargs⟩ := specCreates_isCreate env taskLists records _ h
          exact NotionCall.noConfusion hargs
        · exact h
      · unfold specUpdates at h
        obtain ⟨tl, _, h⟩ := List.mem_flatMap.mp h
        obtain ⟨t, _, h⟩ := List.mem_flatMap.mp h
        unfold specUpdateFor at h
        split at h
        · simp at h
        · split at h
          · simp at h
          · simp [statusCall, archiveCall] at h
    have hstat2 : statusCall pageId status ∈ specUpdates taskLists records := by
      rcases List.mem_append.mp hstat with h | h
      · rcases List.mem_append.mp h with h | h
        · unfold specCreates at h
          obtain ⟨tl, _, h⟩ := List.mem_flatMap.mp h
          obtain ⟨t, _, h⟩ := List.mem_map.mp h
          simp [statusCall, createCall] at h
        · unfold specArchives at h
          obtain ⟨r, _, h⟩ := List.mem_map.mp h
          simp [statusCall, archiveCall] at h
      · exact h
    unfold specArchives at harch2
    obtain ⟨r, hr, hreq⟩ := List.mem_map.mp harch2
    obtain ⟨hrmem, horphan⟩ := List.mem_filter.mp hr
    have hrid : r.id = pageId := by
      simp only [archiveCall, NotionCall.pagesUpdate.injEq, UpdateArgs.mk.injEq] at hreq
      exact hreq.1
    unfold specUpdates at hstat2
    obtain ⟨tl, htl, h⟩ := List.mem_flatMap.mp hstat2
    obtain ⟨t, ht, h⟩ := List.mem_flatMap.mp h
    unfold specUpdateFor at h
    split at h
    · simp at h
    · rename_i r2 hfm
      split at h
      · simp at h
      · simp only [List.mem_singleton, statusCall, NotionCall.pagesUpdate.injEq,
          UpdateArgs.mk.injEq] at h
        have hr2mem := (firstMatch_some hfm).1
        have hid : r2.id = r.id := by rw [hrid]; exact h.1.symm
        have heq : r2 = r :=
          List.inj_on_of_nodup_map hnd hr2mem hrmem hid
        rw [heq] at hfm
        exact horph r horphan tl htl t ht hfm

/-- C6, at records B (matched) and C (orphaned) and tasks A (new) and B
(status changed): the archive call of the cycle targets C only, the update
targets B only. -/
theorem classification_complete_witness :
    (∀ r ∈ [examplePage "p1" "B" "Not Started", examplePage "p3" "C" "Completed"],
      WellFormed r) ∧
    NotionCall.pagesUpdate ⟨"p3", some true, none⟩ ∈ cycleCalls exampleEnv exampleTaskLists
      [examplePage "p1" "B" "Not Started", examplePage "p3" "C" "Completed"] ∧
    statusCall "p3" "Completed" ∉ cycleCalls exampleEnv exampleTaskLists
      [examplePage "p1" "B" "Not Started", examplePage "p3" "C" "Completed"] :=
  ⟨by decide, by decide,
   (classification_complete exampleEnv exampleTaskLists
      [examplePage "p1" "B" "Not Started", examplePage "p3" "C" "Completed"]
      (by decide)).2.2.2 (by decide) "p3" (by decide) "Completed"⟩

theorem succeeded_of_no_reject (env : Env) (calls : List NotionCall)
    (h : ∀ n, env.rejects n = false) : succeeded env calls = calls := by
  unfold succeeded
  rw [List.filter_eq_self.mpr (fun ic _ => by simp [h ic.1])]
  exact List.enum_map_snd calls

/-- C5 (as stated) fails: with two tasks titled A, one open and one completed,
and an empty sink, the first cycle creates two rows and the second cycle, on
the same snapshot and the resulting collection, issues a status update. -/
theorem second_cycle_updates_on_duplicate_titles :
    applyCalls exampleFreshId [] (succeeded exampleEnv
        (cycleCalls exampleEnv duplicateTitleTaskLists [])) =
      [ ⟨"n", [("Name", .title [⟨some ⟨"A"⟩⟩]), ("TaskList", .rich_text [⟨some ⟨"My Tasks"⟩⟩]),
          ("Status", .select (some ⟨"Not Started"⟩))]⟩,
        ⟨"nn", [("Name", .title [⟨some ⟨"A"⟩⟩]), ("TaskList", .rich_text [⟨some ⟨"My Tasks"⟩⟩]),
          ("Status", .select (some ⟨"Completed"⟩))]⟩ ] ∧
    cycleCalls exampleEnv duplicateTitleTaskLists
        (applyCalls exampleFreshId [] (succeeded exampleEnv
          (cycleCalls exampleEnv duplicateTitleTaskLists []))) =
      [.pagesUpdate ⟨"n", none, some [("Status", .select (some ⟨"Completed"⟩))]⟩] := by
  decide

/-- C5 (amended): on well-formed sink records with pairwise distinct ids, when
tasks with equal titles have equal derived status, all writes of one cycle
succeed and are applied to the sink (created pages appended under ids not in
use by the queried records, archived pages removed, status updates applied),
a second cycle on the same snapshot and the resulting collection issues no
create, archive or update request. -/
theorem second_cycle_issues_nothing (env env2 : Env) (taskLists : List TaskList)
    (records : List NotionPage) (freshId : List NotionPage → String)
    (hwf : ∀ r ∈ records, WellFormed r)
    (hids : (records.map (fun r => r.id)).Nodup)
    (hfresh : ∀ pages, freshId pages ∉ records.map (fun r => r.id))
    (hsucc : ∀ n, env.rejects n = false)
    (hagree : ∀ taskList ∈ taskLists, ∀ task ∈ taskList.tasks,
      ∀ taskList2 ∈ taskLists, ∀ task2 ∈ taskList2.tasks,
        task.title = task2.title → derivedStatus task = derivedStatus task2) :
    cycleCalls env2 taskLists
      (applyCalls freshId records (succeeded env (cycleCalls env taskLists records))) = [] := by
  rw [succeeded_of_no_reject env _ hsucc]
  obtain ⟨h1, h2, h3⟩ := sink_after_cycle_settled env taskLists records freshId hwf hids hfresh
    hagree
  exact cycleCalls_nil_of_settled env2 taskLists _ h1 h2 h3

theorem exampleFreshId_fresh (pages : List NotionPage) :
    exampleFreshId pages ∉ ["p1", "p3"] := by
  intro h
  simp only [List.mem_cons, List.mem_singleton, List.not_mem_nil, or_false] at h
  rcases h with h | h <;>
  · have := congrArg String.data h
    simp [exampleFreshId, List.replicate_succ] at this

/-- C5 (amended), at tasks A (open) and B (completed) and records B (Not
Started) and C: the second cycle issues nothing. -/
theorem second_cycle_issues_nothing_witness :
    (∀ r ∈ [examplePage "p1" "B" "Not Started", examplePage "p3" "C" "Completed"],
      WellFormed r) ∧
    (cycleCalls exampleEnv exampleTaskLists
      [examplePage "p1" "B" "Not Started", examplePage "p3" "C" "Completed"]).length = 3 ∧
    cycleCalls failingEnv exampleTaskLists
      (applyCalls exampleFreshId
        [examplePage "p1" "B" "Not Started", examplePage "p3" "C" "Completed"]
        (succeeded exampleEnv (cycleCalls exampleEnv exampleTaskLists
          [examplePage "p1" "B" "Not Started", examplePage "p3" "C" "Completed"]))) = [] :=
  ⟨by decide, by decide,
   second_cycle_issues_nothing exampleEnv failingEnv exampleTaskLists
     [examplePage "p1" "B" "Not Started", examplePage "p3" "C" "Completed"] exampleFreshId
     (by decide) (by decide) exampleFreshId_fresh (fun _ => rfl) (by decide)⟩

end GTasksNotion
